import Mathlib

/-!
The argument types of dcmd: a shallow embedding of `arg.go`.

Go strings are byte sequences. They are embedded as `List Char`, one `Char`
per byte (the byte `b` is the character with code `b`), so that `len`, slicing,
indexing, `HasPrefix` and `HasSuffix` are the byte operations of the source.
`int64` values are embedded as `Int` together with the range predicate
`isInt64`. A Go function returning `(value, error)` is embedded as a function
returning a pair whose second component is `none` for a `nil` error.
-/

namespace Dcmd

/-- A Go string: its bytes in order, one character per byte. -/
abbrev GoString := List Char

/-! ## The parts of the Go standard library that `arg.go` calls -/

/-- The two causes a `strconv.NumError` can carry. -/
inductive NumErr where
  | ErrSyntax
  | ErrRange
  deriving DecidableEq, Repr

/-- Largest `uint64`. -/
def maxUint64 : Nat := 2 ^ 64 - 1

/-- The range of `int64`. -/
def isInt64 (v : Int) : Prop := -(2 : Int) ^ 63 ≤ v ∧ v < (2 : Int) ^ 63

instance (v : Int) : Decidable (isInt64 v) := by
  unfold isInt64; exact inferInstance

/-- The digit loop of `strconv.ParseUint(s, 10, 64)`: every byte must be a
decimal digit (base 10 is given explicitly, so underscores are not accepted);
the accumulator is checked against `maxUint64 / 10 + 1` before the
multiplication and against `maxUint64` after the addition, and the loop returns
at the first failure. The wrap-around test `n1 < n` of the source is the test
`n * 10 + d > maxUint64` on unbounded naturals. -/
def parseUintLoop : GoString → Nat → Nat × Option NumErr
  | [], n => (n, none)
  | c :: cs, n =>
    if '0' ≤ c ∧ c ≤ '9' then
      if n ≥ maxUint64 / 10 + 1 then (maxUint64, some NumErr.ErrRange)
      else if n * 10 + (c.toNat - 48) > maxUint64 then (maxUint64, some NumErr.ErrRange)
      else parseUintLoop cs (n * 10 + (c.toNat - 48))
    else (0, some NumErr.ErrSyntax)

/-- `strconv.ParseUint(s, 10, 64)`. -/
def ParseUint (s : GoString) : Nat × Option NumErr :=
  match s with
  | [] => (0, some NumErr.ErrSyntax)
  | _ => parseUintLoop s 0

/-- `strconv.ParseInt(s, 10, 64)`: an optional sign, then `ParseUint`; a
magnitude outside `int64` gives the clamped value together with `ErrRange`. -/
def ParseInt (s : GoString) : Int × Option NumErr :=
  match s with
  | [] => (0, some NumErr.ErrSyntax)
  | c :: rest =>
    let neg := decide (c = '-')
    let body := if c = '+' ∨ c = '-' then rest else s
    let r := ParseUint body
    if r.2 = some NumErr.ErrSyntax then (0, some NumErr.ErrSyntax)
    else if !neg && decide (r.1 ≥ 2 ^ 63) then ((2 : Int) ^ 63 - 1, some NumErr.ErrRange)
    else if neg && decide (r.1 > 2 ^ 63) then (-(2 : Int) ^ 63, some NumErr.ErrRange)
    else (if neg then -(r.1 : Int) else (r.1 : Int), none)

/-- The decimal digit byte of `d < 10`. -/
def digitByte (d : Nat) : Char := Char.ofNat (48 + d)

/-- The decimal digits of `u`, most significant first, as `strconv` writes
them; `fuel` bounds the number of digits. -/
def formatBits : Nat → Nat → GoString
  | 0, _ => []
  | fuel + 1, u =>
    if u < 10 then [digitByte u] else formatBits fuel (u / 10) ++ [digitByte (u % 10)]

/-- `strconv.FormatUint(u, 10)` for a `uint64`, which has at most 20 digits. -/
def FormatUint (u : Nat) : GoString := formatBits 20 u

/-- `strconv.FormatInt(v, 10)`: the base-10 text of `v`. -/
def FormatInt (v : Int) : GoString :=
  if v < 0 then '-' :: FormatUint v.natAbs else FormatUint v.natAbs

/-- `strings.HasPrefix`. -/
def HasPrefix (s pre : GoString) : Bool := pre.isPrefixOf s

/-- `strings.HasSuffix`. -/
def HasSuffix (s suf : GoString) : Bool := suf.isSuffixOf s

/-- `strings.Contains`: `substr` occurs in `s` as a contiguous run of bytes. -/
def Contains (s substr : GoString) : Bool := s.tails.any (fun t => substr.isPrefixOf t)

/-- The Unicode case tables of the standard library, which only matter for
strings holding a byte outside ASCII. They are a parameter of the embedding;
on ASCII input `ToLower` and `EqualFold` below do not consult them. -/
structure UnicodeTables where
  /-- The result of `strings.Map(unicode.ToLower, s)`. -/
  mapToLower : GoString → GoString
  /-- The rune-by-rune comparison `strings.EqualFold` runs from its
  `hasUnicode` label on the two remaining suffixes. -/
  foldTail : GoString → GoString → Bool

/-- The byte is an upper-case ASCII letter. -/
def isUpperByte (c : Char) : Bool := decide ('A' ≤ c ∧ c ≤ 'Z')

/-- The byte is below `utf8.RuneSelf`. -/
def isASCIIByte (c : Char) : Bool := decide (c.toNat < 128)

/-- The ASCII lower-case form of one byte. -/
def lowerByte (c : Char) : Char := if isUpperByte c then Char.ofNat (c.toNat + 32) else c

/-- `strings.ToLower`: an ASCII-only string is lower-cased byte by byte,
any other string goes through `unicode.ToLower`. -/
def ToLower (U : UnicodeTables) (s : GoString) : GoString :=
  if s.all isASCIIByte then s.map lowerByte else U.mapToLower s

/-- `strings.EqualFold`: the ASCII loop compares byte by byte, accepting two
bytes that are the upper- and lower-case form of one letter, and hands the
remaining suffixes to the Unicode comparison at the first non-ASCII byte; when
one string runs out the lengths must agree. -/
def EqualFold (U : UnicodeTables) : GoString → GoString → Bool
  | [], [] => true
  | [], _ :: _ => false
  | _ :: _, [] => false
  | a :: s, b :: t =>
    if !(isASCIIByte a) || !(isASCIIByte b) then U.foldTail (a :: s) (b :: t)
    else if a = b then EqualFold U s t
    else if isUpperByte (min a b) && decide ((max a b).toNat = (min a b).toNat + 32) then
      EqualFold U s t
    else false

/-! ## Data model -/

/-- The fields of `discordgo.User` used by the argument types. -/
structure User where
  ID : Int
  Username : GoString
  Bot : Bool := false
  deriving DecidableEq, Repr

/-- The fields of `dstate.MemberState` used by the argument types. -/
structure MemberState where
  ID : Int
  Username : GoString
  Nick : GoString
  Roles : List Int
  Bot : Bool
  deriving DecidableEq, Repr

/-- `MemberState.Copy`: a deep copy. Values of the embedding carry no
identity, so the copy is the same value. -/
def MemberState.Copy (m : MemberState) : MemberState := m

/-- `MemberState.DGoUser`: the user record of a member. -/
def MemberState.DGoUser (m : MemberState) : User :=
  { ID := m.ID, Username := m.Username, Bot := m.Bot }

/-- The fields of `discordgo.Member` used by the argument types; `User` is a
pointer and may be nil. -/
structure Member where
  User : Option User
  Nick : GoString
  Roles : List Int
  deriving DecidableEq, Repr

/-- The fields of `discordgo.Role` used here. -/
structure Role where
  ID : Int
  Name : GoString
  deriving DecidableEq, Repr

/-- The fields of `discordgo.Channel` used here. -/
structure Channel where
  ID : Int
  Name : GoString
  deriving DecidableEq, Repr

/-- The fields of `dstate.ChannelState` used here. -/
structure ChannelState where
  ID : Int
  Name : GoString
  deriving DecidableEq, Repr

/-- `AdvUserMatch`: both fields are pointers. -/
structure AdvUserMatch where
  Member : Option MemberState
  User : Option User
  deriving DecidableEq, Repr

/-- The pointer types whose values the package stores in an `interface{}`:
`*discordgo.User`, `*dstate.MemberState`, `*AdvUserMatch` and
`*dstate.ChannelState`. -/
inductive PointerKind where
  | user
  | memberState
  | advUserMatch
  | channelState
  deriving DecidableEq, Repr

/-- A value of type `interface{}`: `nil`, or a value tagged with its dynamic
kind. A `float64` is carried as its IEEE-754 bit pattern; a pointer that is
not nil carries the value pointed to, and `nilPointer` is a nil pointer of the
given pointer type, which is not the nil interface; `other` stands for a value
of any further dynamic type, told apart by a number. -/
inductive Value where
  | nil
  | int (v : Int)
  | int32 (v : Int)
  | int64 (v : Int)
  | uint (v : Nat)
  | uint32 (v : Nat)
  | uint64 (v : Nat)
  | float64 (bits : Nat)
  | string (s : GoString)
  | bool (b : Bool)
  | user (u : User)
  | memberState (m : MemberState)
  | advUserMatch (m : AdvUserMatch)
  | channelState (c : ChannelState)
  | other (kind : Nat)
  | nilPointer (kind : PointerKind)
  deriving DecidableEq, Repr

/-- Modelled from the spec: the error values of the package, whose
declarations (`InvalidInt`, `InvalidFloat`, `OutOfRangeError`,
`ImproperMention`, `UserNotFound`, `NewSimpleUserError`, `NewErrArgExpected`,
`ErrResolvedNotFound`, `ErrChannelNotFound`) are not among the source files.
Each constructor carries exactly the fields or arguments that the call sites
in `arg.go` pass; `NumError` is a `*strconv.NumError` returned unchanged. -/
inductive Error where
  | InvalidInt (Part : GoString)
  | InvalidFloat (Part : GoString)
  | OutOfRangeError (ArgName : GoString) (Got Min Max : Value) (Float : Bool)
  | ImproperMention (Part : GoString)
  | UserNotFound (Part : GoString)
  | SimpleUserError (msg : GoString)
  | ErrArgExpected (name expected : GoString) (got : Value)
  | ErrResolvedNotFound (Key : GoString) (ID : Int) (typ : GoString)
  | ErrChannelNotFound
  | NumError (Func Num : GoString) (Err : NumErr)
  deriving DecidableEq, Repr

/-- `NewErrArgExpected(name, expected, got)`. -/
def NewErrArgExpected (name expected : GoString) (got : Value) : Error :=
  Error.ErrArgExpected name expected got

/-- `NewSimpleUserError(msg)`. -/
def NewSimpleUserError (msg : GoString) : Error := Error.SimpleUserError msg

/-- `ArgDef` without its `Type` field: the argument type is the receiver of
every operation below. -/
structure ArgDef where
  Name : GoString
  Help : GoString
  Default : Value

/-- The part of `dstate.GuildState` read here: `Members` and `Channels` are
maps from id to a pointer, listed in the order a `range` enumerates them. -/
structure GuildState where
  ID : Int
  Members : List (Int × Option MemberState)
  Channels : List (Int × Option ChannelState)

/-- The session collaborator: the two remote fetches, each returning a pointer
and an error. -/
structure Session where
  GuildMember : Int → Int → Option Member × Option Error
  User : Int → Option User × Option Error

/-- The invocation context `Data`: the guild data, the triggering message
(here its mention list) and the session are pointers, and each may be nil. -/
structure Data where
  GuildData : Option GuildState
  TraditionalTriggerData : Option (List User)
  Session : Option Session

/-! ## `IntArg` -/

/-- `IntArg`. -/
structure IntArg where
  Min : Int
  Max : Int
  InteractionString : Bool

/-- `IntArg.ParseFromMessage`. -/
def IntArg.ParseFromMessage (i : IntArg) (d : ArgDef) (part : GoString) (_data : Data) :
    Value × Option Error :=
  let r := ParseInt part
  if r.2 ≠ none then (Value.nil, some (Error.InvalidInt part))
  else if i.Max ≠ i.Min ∧ (i.Max < r.1 ∨ i.Min > r.1) then
    (Value.nil, some (Error.OutOfRangeError d.Name (Value.int64 r.1) (Value.int64 i.Min)
      (Value.int64 i.Max) false))
  else (Value.int64 r.1, none)

/-! ## The username search -/

/-- The test `strings.EqualFold(str, v.Username) || strings.EqualFold(str, v.Nick)`. -/
def fullMatch (U : UnicodeTables) (str : GoString) (v : MemberState) : Bool :=
  EqualFold U str v.Username || EqualFold U str v.Nick

/-- The test `strings.Contains(strings.ToLower(v.Username), lowerIn)`. -/
def partialMatch (U : UnicodeTables) (lowerIn : GoString) (v : MemberState) : Bool :=
  Contains (ToLower U v.Username) lowerIn

/-- The loop `for _, v := range gs.Members` of `FindDiscordMemberByName`, run
over the member pointers in enumeration order, carrying `fullMatches` and
`partialMatches`. A nil pointer and a member with an empty username are
skipped; a full match is copied and appended, and the loop breaks when five
have been collected; any other member is appended to the partial matches when
fewer than five are held and its lower-cased username contains `lowerIn`. -/
def scanMembers (U : UnicodeTables) (str lowerIn : GoString) :
    List (Option MemberState) → List MemberState → List MemberState →
      List MemberState × List MemberState
  | [], fullMatches, partialMatches => (fullMatches, partialMatches)
  | none :: rest, fullMatches, partialMatches =>
    scanMembers U str lowerIn rest fullMatches partialMatches
  | some v :: rest, fullMatches, partialMatches =>
    if v.Username = [] then scanMembers U str lowerIn rest fullMatches partialMatches
    else if fullMatch U str v then
      if (fullMatches ++ [v.Copy]).length ≥ 5 then (fullMatches ++ [v.Copy], partialMatches)
      else scanMembers U str lowerIn rest (fullMatches ++ [v.Copy]) partialMatches
    else if partialMatches.length < 5 then
      if partialMatch U lowerIn v then
        scanMembers U str lowerIn rest fullMatches (partialMatches ++ [v])
      else scanMembers U str lowerIn rest fullMatches partialMatches
    else scanMembers U str lowerIn rest fullMatches partialMatches

/-- One round of the two loops that build `out`: a separator when `out` is not
empty, then the back-quoted username. -/
def appendName (out : GoString) (v : MemberState) : GoString :=
  (if out ≠ [] then out ++ ", ".toList else out) ++ "`".toList ++ v.Username ++ "`".toList

/-- The text `out` after the loop over the full matches and the loop over the
partial matches. -/
def candidateList (fullMatches partialMatches : List MemberState) : GoString :=
  partialMatches.foldl appendName (fullMatches.foldl appendName [])

/-- The message of the error returned when more than one full match was collected. -/
def tooManyMessage (out : GoString) : GoString :=
  "Too many users with that name, ".toList ++ out ++
    ". Please re-run the command with a narrower search, mention or ID.".toList

/-- The message of the error returned on the last line of the search. -/
def didYouMeanMessage (out : GoString) : GoString :=
  "Did you mean one of these? ".toList ++ out ++
    ". Please re-run the command with a narrower search, mention or ID".toList

/-- The type of the hook `CustomUsernameSearchFunc`. -/
abbrev UsernameSearchFunc := GuildState → GoString → Option MemberState × Option Error

/-- `FindDiscordMemberByName`; `hook` is the package variable
`CustomUsernameSearchFunc`, `none` when it is nil. -/
def FindDiscordMemberByName (U : UnicodeTables) (hook : Option UsernameSearchFunc)
    (gs : GuildState) (str : GoString) : Option MemberState × Option Error :=
  match hook with
  | some f => f gs str
  | none =>
    let r := scanMembers U str (ToLower U str) (gs.Members.map Prod.snd) [] []
    match r.1 with
    | [m] => (some m.Copy, none)
    | fullMatches =>
      if fullMatches.length = 0 ∧ r.2.length = 0 then (none, some (Error.UserNotFound str))
      else if fullMatches.length > 1 then
        (none, some (NewSimpleUserError (tooManyMessage (candidateList fullMatches r.2))))
      else (none, some (NewSimpleUserError (didYouMeanMessage (candidateList fullMatches r.2))))

/-! ## `UserIDArg` -/

/-- `UserIDArg.Matches`. -/
def UserIDArg.Matches (_d : ArgDef) (part : GoString) : Bool :=
  if HasPrefix part "<@".toList && HasSuffix part ">".toList then true
  else if (ParseInt part).2 = none then true
  else false

/-- `UserIDArg.ParseFromMessage`. The slice `part[2 : len(part)-1]` is taken
when `len(part) > 3`, so it holds at least one byte and `id[0]` is in range. -/
def UserIDArg.ParseFromMessage (_d : ArgDef) (part : GoString) (_data : Data) :
    Value × Option Error :=
  if HasPrefix part "<@".toList && decide (part.length > 3) then
    let id := (part.take (part.length - 1)).drop 2
    let id := if id.head? = some '!' then id.drop 1 else id
    let r := ParseInt id
    if r.2 ≠ none then (Value.nil, some (Error.ImproperMention part))
    else (Value.int64 r.1, none)
  else
    let r := ParseInt part
    if r.2 = none then (Value.int64 r.1, none)
    else (Value.nil, some (Error.ImproperMention part))

/-! ## The structured option adapter -/

/-- The fields of `discordgo.ApplicationCommandInteractionDataOption` read here. -/
structure DataOption where
  Name : GoString
  Value : Value
  deriving DecidableEq, Repr

/-- The resolved side tables of the interaction,
`Interaction.DataCommand.Resolved`: maps from id to a pointer. The pointers
leading to the tables are taken to be non-nil, as in a received application
command. -/
structure Resolved where
  Users : Int → Option (Option User)
  Members : Int → Option (Option Member)
  Roles : Int → Option (Option Role)
  Channels : Int → Option (Option Channel)

/-- `SlashCommandsParseOptions`: the option map, from key to a non-nil option,
and the resolved tables of the interaction. -/
structure SlashCommandsParseOptions where
  Options : GoString → Option DataOption
  Interaction : Resolved

namespace SlashCommandsParseOptions

/-- `ExpectAnyOpt`. -/
def ExpectAnyOpt (U : UnicodeTables) (sopts : SlashCommandsParseOptions) (name : GoString) :
    Value × Bool :=
  match sopts.Options (ToLower U name) with
  | some v => (v.Value, true)
  | none => (Value.nil, false)

/-- `ExpectAny`. -/
def ExpectAny (U : UnicodeTables) (sopts : SlashCommandsParseOptions) (name : GoString) :
    Value × Option Error :=
  let r := ExpectAnyOpt U sopts name
  if r.2 then (r.1, none)
  else (Value.int 0, some (NewErrArgExpected name "any".toList Value.nil))

/-- `ExpectInt64Opt`. -/
def ExpectInt64Opt (U : UnicodeTables) (sopts : SlashCommandsParseOptions) (name : GoString) :
    Int × Bool × Option Error :=
  match sopts.Options (ToLower U name) with
  | some v =>
    match v.Value with
    | Value.int64 cast => (cast, true, none)
    | _ => (0, true, some (NewErrArgExpected name "int64".toList v.Value))
  | none => (0, false, none)

/-- `ExpectInt64`. -/
def ExpectInt64 (U : UnicodeTables) (sopts : SlashCommandsParseOptions) (name : GoString) :
    Int × Option Error :=
  match ExpectInt64Opt U sopts name with
  | (_, _, some err) => (0, some err)
  | (v, true, none) => (v, none)
  | (_, false, none) => (0, some (NewErrArgExpected name "int64".toList Value.nil))

/-- `ExpectStringOpt`. -/
def ExpectStringOpt (U : UnicodeTables) (sopts : SlashCommandsParseOptions) (name : GoString) :
    GoString × Bool × Option Error :=
  match sopts.Options (ToLower U name) with
  | some v =>
    match v.Value with
    | Value.string cast => (cast, true, none)
    | _ => ([], true, some (NewErrArgExpected name "string".toList v.Value))
  | none => ([], false, none)

/-- `ExpectString`. -/
def ExpectString (U : UnicodeTables) (sopts : SlashCommandsParseOptions) (name : GoString) :
    GoString × Option Error :=
  match ExpectStringOpt U sopts name with
  | (_, _, some err) => ([], some err)
  | (v, true, none) => (v, none)
  | (_, false, none) => ([], some (NewErrArgExpected name "string".toList Value.nil))

/-- `ExpectBoolOpt`. The mismatch error names the expected kind `"string"`, as
the source does. -/
def ExpectBoolOpt (U : UnicodeTables) (sopts : SlashCommandsParseOptions) (name : GoString) :
    Bool × Bool × Option Error :=
  match sopts.Options (ToLower U name) with
  | some v =>
    match v.Value with
    | Value.bool cast => (cast, true, none)
    | _ => (false, true, some (NewErrArgExpected name "string".toList v.Value))
  | none => (false, false, none)

/-- `ExpectBool`. -/
def ExpectBool (U : UnicodeTables) (sopts : SlashCommandsParseOptions) (name : GoString) :
    Bool × Option Error :=
  match ExpectBoolOpt U sopts name with
  | (_, _, some err) => (false, some err)
  | (v, true, none) => (v, none)
  | (_, false, none) => (false, some (NewErrArgExpected name "bool".toList Value.nil))

/-- `ExpectUserOpt`. -/
def ExpectUserOpt (U : UnicodeTables) (sopts : SlashCommandsParseOptions) (name : GoString) :
    Option User × Bool × Option Error :=
  match ExpectInt64Opt U sopts name with
  | (_, found, some err) => (none, found, some err)
  | (_, false, none) => (none, false, none)
  | (id, true, none) =>
    match sopts.Interaction.Users id with
    | none => (none, true, some (Error.ErrResolvedNotFound name id "user".toList))
    | some user => (user, true, none)

/-- `ExpectRoleOpt`. -/
def ExpectRoleOpt (U : UnicodeTables) (sopts : SlashCommandsParseOptions) (name : GoString) :
    Option Role × Bool × Option Error :=
  match ExpectInt64Opt U sopts name with
  | (_, found, some err) => (none, found, some err)
  | (_, false, none) => (none, false, none)
  | (id, true, none) =>
    match sopts.Interaction.Roles id with
    | none => (none, true, some (Error.ErrResolvedNotFound name id "role".toList))
    | some role => (role, true, none)

/-- `ExpectChannelOpt`. -/
def ExpectChannelOpt (U : UnicodeTables) (sopts : SlashCommandsParseOptions) (name : GoString) :
    Option Channel × Bool × Option Error :=
  match ExpectInt64Opt U sopts name with
  | (_, found, some err) => (none, found, some err)
  | (_, false, none) => (none, false, none)
  | (id, true, none) =>
    match sopts.Interaction.Channels id with
    | none => (none, true, some (Error.ErrResolvedNotFound name id "channel".toList))
    | some channel => (channel, true, none)

end SlashCommandsParseOptions

/-! ## Vocabulary for stating the search properties -/

/-- The member pointers of the directory, in enumeration order. -/
def GuildState.memberList (gs : GuildState) : List (Option MemberState) := gs.Members.map Prod.snd

/-- A directory entry is a full match for the query: it is non-nil, has a
non-empty username, and its username or nickname equals the query ignoring
case. -/
def isFullMatch (U : UnicodeTables) (str : GoString) : Option MemberState → Bool
  | some v => decide (v.Username ≠ []) && fullMatch U str v
  | none => false

/-- A directory entry contains the query: it is non-nil, has a non-empty
username, and its username contains the query as a substring ignoring case. -/
def containsQuery (U : UnicodeTables) (str : GoString) : Option MemberState → Bool
  | some v => decide (v.Username ≠ []) && partialMatch U (ToLower U str) v
  | none => false

/-- A directory entry is a partial match: it contains the query and is not a
full match. -/
def isPartialMatch (U : UnicodeTables) (str : GoString) (o : Option MemberState) : Bool :=
  !isFullMatch U str o && containsQuery U str o

/-- The prefix of the enumeration that ends with its `k`-th full match, the
whole enumeration when it has fewer than `k`. -/
def uptoFull (U : UnicodeTables) (str : GoString) : Nat → List (Option MemberState) →
    List (Option MemberState)
  | 0, _ => []
  | _ + 1, [] => []
  | k + 1, o :: rest =>
    if isFullMatch U str o then o :: uptoFull U str k rest else o :: uptoFull U str (k + 1) rest

/-- The members among the entries `ms` that satisfy `p`, in order. -/
def membersWhere (p : Option MemberState → Bool) (ms : List (Option MemberState)) :
    List MemberState :=
  (ms.filter p).filterMap id

/-- A username between back quotes. -/
def quoteName (v : MemberState) : GoString := "`".toList ++ v.Username ++ "`".toList

/-- The back-quoted usernames of `vs`, joined by a comma and a space. -/
def joinNames (vs : List MemberState) : GoString :=
  List.intercalate ", ".toList (vs.map quoteName)

/-- Case tables that leave text outside ASCII unchanged. The search and the
option lookups do not consult the tables on ASCII text, so on such inputs
every choice of tables gives the result computed with these. -/
def asciiTables : UnicodeTables := ⟨fun s => s, fun s t => decide (s = t)⟩

/-- A member with the given id and username, no nickname and no roles. -/
def memberNamed (id : Int) (name : String) : MemberState :=
  { ID := id, Username := name.toList, Nick := [], Roles := [], Bot := false }

/-- A directory holding the users `Bob`, `bob` and `bobby`. -/
def guildBobBobBobby : GuildState :=
  { ID := 1,
    Members := [(1, some (memberNamed 1 "Bob")), (2, some (memberNamed 2 "bob")),
      (3, some (memberNamed 3 "bobby"))],
    Channels := [] }

/-- A directory holding the users `Bob` and `bobby`. -/
def guildBobBobby : GuildState :=
  { ID := 1,
    Members := [(1, some (memberNamed 1 "Bob")), (3, some (memberNamed 3 "bobby"))],
    Channels := [] }

/-- Resolved tables with no entry. -/
def emptyResolved : Resolved :=
  { Users := fun _ => none, Members := fun _ => none, Roles := fun _ => none,
    Channels := fun _ => none }

/-- An option map whose only key is `Foo`, holding the integer `1`. -/
def optionsFoo : SlashCommandsParseOptions :=
  { Options := fun k => if k = "Foo".toList then some ⟨"Foo".toList, Value.int64 1⟩ else none,
    Interaction := emptyResolved }

/-- An option map whose only key is `foo`, holding the integer `1`. -/
def optionsLowerFoo : SlashCommandsParseOptions :=
  { Options := fun k => if k = "foo".toList then some ⟨"foo".toList, Value.int64 1⟩ else none,
    Interaction := emptyResolved }

/-! ## Calls that can stop in a run-time panic -/

/-- The outcome of a call that dereferences pointers: the returned values, or
`fault` when the call stops in a nil-pointer panic. -/
inductive Run (α : Type) where
  | ret (v : α)
  | fault
  deriving DecidableEq, Repr

/-- `GuildState.MemberCopy(true, id)`: a copy of the member stored under `id`,
nil when there is none. -/
def GuildState.MemberCopy (gs : GuildState) (id : Int) : Option MemberState :=
  match gs.Members.lookup id with
  | some (some m) => some m.Copy
  | _ => none

/-- `GuildState.Channel(true, id)`: the channel stored under `id`, nil when
there is none. -/
def GuildState.Channel (gs : GuildState) (id : Int) : Option ChannelState :=
  match gs.Channels.lookup id with
  | some (some c) => some c
  | _ => none

/-- `dstate.MSFromDGoMember(gs, member)`: the member state built from a
`discordgo.Member`; it reads `member.User.ID`, so a nil member or a nil
`member.User` is a panic. -/
def MSFromDGoMember (member : Option Member) : Run MemberState :=
  match member with
  | none => Run.fault
  | some m =>
    match m.User with
    | none => Run.fault
    | some u =>
      Run.ret { ID := u.ID, Username := u.Username, Nick := m.Nick, Roles := m.Roles,
                Bot := u.Bot }

namespace SlashCommandsParseOptions

/-- `ExpectUser`. -/
def ExpectUser (U : UnicodeTables) (sopts : SlashCommandsParseOptions) (name : GoString) :
    Option User × Option Error :=
  match ExpectUserOpt U sopts name with
  | (_, _, some err) => (none, some err)
  | (v, true, none) => (v, none)
  | (_, false, none) => (none, some (NewErrArgExpected name "*discordgo.User".toList Value.nil))

/-- `ExpectChannel`. -/
def ExpectChannel (U : UnicodeTables) (sopts : SlashCommandsParseOptions) (name : GoString) :
    Option Channel × Option Error :=
  match ExpectChannelOpt U sopts name with
  | (_, _, some err) => (none, some err)
  | (v, true, none) => (v, none)
  | (_, false, none) =>
    (none, some (NewErrArgExpected name "*discordgo.Channel".toList Value.nil))

/-- `ExpectMemberOpt`. The entry of the `Members` table is a pointer: reading
or writing its `User` field is a panic when the pointer is nil. When the
`Users` table has no entry for the id, `user` is nil and is stored into the
member all the same. -/
def ExpectMemberOpt (U : UnicodeTables) (sopts : SlashCommandsParseOptions) (name : GoString) :
    Run (Option Member × Bool × Option Error) :=
  match ExpectInt64Opt U sopts name with
  | (_, found, some err) => Run.ret (none, found, some err)
  | (_, false, none) => Run.ret (none, false, none)
  | (id, true, none) =>
    match sopts.Interaction.Members id with
    | none => Run.ret (none, true, some (Error.ErrResolvedNotFound name id "member".toList))
    | some none => Run.fault
    | some (some member) =>
      match sopts.Interaction.Users id with
      | none =>
        if member.User = none then
          Run.ret (none, true, some (Error.ErrResolvedNotFound name id "user".toList))
        else Run.ret (some { member with User := none }, true, none)
      | some user => Run.ret (some { member with User := user }, true, none)

/-- `ExpectMember`. -/
def ExpectMember (U : UnicodeTables) (sopts : SlashCommandsParseOptions) (name : GoString) :
    Run (Option Member × Option Error) :=
  match ExpectMemberOpt U sopts name with
  | Run.fault => Run.fault
  | Run.ret (_, _, some err) => Run.ret (none, some err)
  | Run.ret (v, true, none) => Run.ret (v, none)
  | Run.ret (_, false, none) =>
    Run.ret (none, some (NewErrArgExpected name "*discordgo.Member".toList Value.nil))

end SlashCommandsParseOptions

/-! ## Option declarations -/

/-- The option kinds of `discordgo` that the argument types declare. -/
inductive CommandOptionType where
  | String
  | Integer
  | Boolean
  | User
  | Channel
  | Role
  deriving DecidableEq, Repr

/-- The fields of `discordgo.ApplicationCommandOption` set here. -/
structure ApplicationCommandOption where
  Name : GoString
  Description : GoString
  Kind : CommandOptionType
  deriving DecidableEq, Repr

/-! ## UTF-8, as `range` over a string and `bytes.Buffer` use it -/

/-- `utf8.RuneError`. -/
def RuneError : Nat := 0xFFFD

/-- The byte at index `i` of `s`. -/
def byteAt (s : GoString) (i : Nat) : Nat := (s.getD i (Char.ofNat 0)).toNat

/-- The length of the sequence that the lead byte `b0` announces (table
`first` of package `utf8`); 1 for an ASCII byte and for an invalid lead byte. -/
def utf8Size (b0 : Nat) : Nat :=
  if 0xC2 ≤ b0 ∧ b0 ≤ 0xDF then 2
  else if 0xE0 ≤ b0 ∧ b0 ≤ 0xEF then 3
  else if 0xF0 ≤ b0 ∧ b0 ≤ 0xF4 then 4
  else 1

/-- The lowest second byte accepted after the lead byte `b0` (table
`acceptRanges`). -/
def acceptLo (b0 : Nat) : Nat := if b0 = 0xE0 then 0xA0 else if b0 = 0xF0 then 0x90 else 0x80

/-- The highest second byte accepted after the lead byte `b0`. -/
def acceptHi (b0 : Nat) : Nat := if b0 = 0xED then 0x9F else if b0 = 0xF4 then 0x8F else 0xBF

/-- `utf8.DecodeRuneInString`: the first rune of `s` and its width in bytes;
`(RuneError, 1)` for an invalid or cut-off sequence. The masks and shifts of
the source are written as subtractions and multiplications, which agree with
them on the byte ranges tested before. -/
def DecodeRune (s : GoString) : Nat × Nat :=
  if s.length < 1 then (RuneError, 0)
  else if byteAt s 0 < 0x80 then (byteAt s 0, 1)
  else if utf8Size (byteAt s 0) = 1 then (RuneError, 1)
  else if s.length < utf8Size (byteAt s 0) then (RuneError, 1)
  else if byteAt s 1 < acceptLo (byteAt s 0) ∨ acceptHi (byteAt s 0) < byteAt s 1 then
    (RuneError, 1)
  else if utf8Size (byteAt s 0) ≤ 2 then
    ((byteAt s 0 - 0xC0) * 64 + (byteAt s 1 - 0x80), 2)
  else if byteAt s 2 < 0x80 ∨ 0xBF < byteAt s 2 then (RuneError, 1)
  else if utf8Size (byteAt s 0) ≤ 3 then
    ((byteAt s 0 - 0xE0) * 4096 + (byteAt s 1 - 0x80) * 64 + (byteAt s 2 - 0x80), 3)
  else if byteAt s 3 < 0x80 ∨ 0xBF < byteAt s 3 then (RuneError, 1)
  else
    ((byteAt s 0 - 0xF0) * 262144 + (byteAt s 1 - 0x80) * 4096 + (byteAt s 2 - 0x80) * 64 +
      (byteAt s 3 - 0x80), 4)

/-- The bytes `utf8.AppendRune` writes for the rune `r`: a surrogate or a value
above `utf8.MaxRune` is written as `RuneError`. -/
def EncodeRune (r : Nat) : GoString :=
  if r < 0x80 then [Char.ofNat r]
  else if r ≤ 0x7FF then [Char.ofNat (0xC0 + r / 64), Char.ofNat (0x80 + r % 64)]
  else if r > 0x10FFFF ∨ (0xD800 ≤ r ∧ r ≤ 0xDFFF) then
    [Char.ofNat 0xEF, Char.ofNat 0xBF, Char.ofNat 0xBD]
  else if r ≤ 0xFFFF then
    [Char.ofNat (0xE0 + r / 4096), Char.ofNat (0x80 + r / 64 % 64), Char.ofNat (0x80 + r % 64)]
  else
    [Char.ofNat (0xF0 + r / 262144), Char.ofNat (0x80 + r / 4096 % 64),
      Char.ofNat (0x80 + r / 64 % 64), Char.ofNat (0x80 + r % 64)]

/-- The runes a `for _, r := range s` loop yields, decoding at most `fuel`
of them. -/
def rangeRunesAux : Nat → GoString → List Nat
  | 0, _ => []
  | _ + 1, [] => []
  | fuel + 1, c :: cs =>
    (DecodeRune (c :: cs)).1 :: rangeRunesAux fuel ((c :: cs).drop (DecodeRune (c :: cs)).2)

/-- The runes a `for _, r := range s` loop yields: every rune takes at least
one byte, so `len(s)` steps reach the end. -/
def rangeRunes (s : GoString) : List Nat := rangeRunesAux s.length s

/-- The bytes of a sequence of runes written one after the other. -/
def encodeRunes (rs : List Nat) : GoString := (rs.map EncodeRune).flatten

/-- `bytes.Buffer.ReadRune` on a buffer holding `buf`: the rune read and the
bytes left. -/
def ReadRune (buf : GoString) : Nat × GoString :=
  if buf = [] then (0, buf) else ((DecodeRune buf).1, buf.drop (DecodeRune buf).2)

/-- A rune that `range` can yield and that is written as itself: a Unicode
scalar value. -/
def validRune (r : Nat) : Prop := r < 0x110000 ∧ ¬ (0xD800 ≤ r ∧ r ≤ 0xDFFF)

/-- The text `s` is valid UTF-8: writing the runes read from it gives `s`
back. -/
def ValidUTF8 (s : GoString) : Prop := encodeRunes (rangeRunes s) = s

/-- `utf8.RuneCountInString`: the number of characters of `s`. -/
def RuneCount (s : GoString) : Nat := (rangeRunes s).length

/-! ## Option declarations: `cutStringShort` and `StandardSlashCommandOption` -/

/-- The loop of `cutStringShort` over the runes still to come, with the two
buffers and the counter `i`. -/
def cutLoop (l : Nat) : List Nat → GoString → GoString → Nat → GoString
  | [], mainBuf, latestBuf, _ => mainBuf ++ latestBuf
  | r :: rs, mainBuf, latestBuf, i =>
    let latest1 := latestBuf ++ EncodeRune r
    let mainBuf2 := if i > 3 then mainBuf ++ EncodeRune (ReadRune latest1).1 else mainBuf
    let latest2 := if i > 3 then (ReadRune latest1).2 else latest1
    if i ≥ l then mainBuf2 ++ "...".toList
    else cutLoop l rs mainBuf2 latest2 (i + 1)

/-- `cutStringShort`. -/
def cutStringShort (s : GoString) (l : Nat) : GoString := cutLoop l (rangeRunes s) [] [] 0

/-- `ArgDef.StandardSlashCommandOption`. -/
def ArgDef.StandardSlashCommandOption (d : ArgDef) (typ : CommandOptionType) :
    ApplicationCommandOption :=
  { Name := d.Name,
    Description := if cutStringShort d.Help 100 = [] then d.Name else cutStringShort d.Help 100,
    Kind := typ }

/-- `IntArg.SlashCommandOptions`. -/
def IntArg.SlashCommandOptions (i : IntArg) (d : ArgDef) : List ApplicationCommandOption :=
  if i.InteractionString then [d.StandardSlashCommandOption CommandOptionType.String]
  else [d.StandardSlashCommandOption CommandOptionType.Integer]

/-- `StringArg.SlashCommandOptions`. -/
def StringArg.SlashCommandOptions (d : ArgDef) : List ApplicationCommandOption :=
  [d.StandardSlashCommandOption CommandOptionType.String]

/-- `UserIDArg.SlashCommandOptions`. -/
def UserIDArg.SlashCommandOptions (d : ArgDef) : List ApplicationCommandOption :=
  [{ d.StandardSlashCommandOption CommandOptionType.String with
      Name := (d.StandardSlashCommandOption CommandOptionType.String).Name ++ "-ID".toList },
   d.StandardSlashCommandOption CommandOptionType.User]

/-! ## `IntArg`, `StringArg` and `UserIDArg` on an interaction -/

/-- The error a failed `strconv.ParseInt(s, 10, 64)` returns. -/
def parseIntError (s : GoString) (e : NumErr) : Error :=
  Error.NumError "ParseInt".toList s e

/-- `IntArg.ParseFromInteraction`. A value of a kind other than `string` and
`int64` falls into the empty `default` case and leaves `v` at zero. -/
def IntArg.ParseFromInteraction (U : UnicodeTables) (i : IntArg) (d : ArgDef) (_data : Data)
    (options : SlashCommandsParseOptions) : Value × Option Error :=
  let r := options.ExpectAny U d.Name
  if r.2 ≠ none then (Value.nil, r.2)
  else
    let p : Int × Option Error :=
      match r.1 with
      | Value.string t => ((ParseInt t).1, (ParseInt t).2.map (parseIntError t))
      | Value.int64 t => (t, none)
      | _ => (0, none)
    if p.2 ≠ none then (Value.nil, p.2)
    else if i.Max ≠ i.Min ∧ (i.Max < p.1 ∨ i.Min > p.1) then
      (Value.nil, some (Error.OutOfRangeError d.Name (Value.int64 p.1) (Value.int64 i.Min)
        (Value.int64 i.Max) false))
    else (Value.int64 p.1, none)

/-- `StringArg.ParseFromMessage`. -/
def StringArg.ParseFromMessage (_d : ArgDef) (part : GoString) (_data : Data) :
    Value × Option Error :=
  (Value.string part, none)

/-- `StringArg.ParseFromInteraction`. -/
def StringArg.ParseFromInteraction (U : UnicodeTables) (d : ArgDef) (_data : Data)
    (options : SlashCommandsParseOptions) : Value × Option Error :=
  let r := options.ExpectString U d.Name
  (Value.string r.1, r.2)

/-- `UserIDArg.ParseFromInteraction`. When the user option is found, `user.ID`
is read from the table entry, a pointer that may be nil. -/
def UserIDArg.ParseFromInteraction (U : UnicodeTables) (d : ArgDef) (_data : Data)
    (options : SlashCommandsParseOptions) : Run (Value × Option Error) :=
  match options.ExpectUserOpt U d.Name with
  | (_, _, some err) => Run.ret (Value.nil, some err)
  | (some user, true, none) => Run.ret (Value.int64 user.ID, none)
  | (none, true, none) => Run.fault
  | (_, false, none) =>
    let s := options.ExpectString U (d.Name ++ "-ID".toList)
    if s.2 ≠ none then Run.ret (Value.nil, s.2)
    else Run.ret (Value.int64 (ParseInt s.1).1, (ParseInt s.1).2.map (parseIntError s.1))

/-! ## `UserArg` -/

/-- `UserArg`. -/
structure UserArg where
  RequireMention : Bool

/-- `UserArg.Matches`. -/
def UserArg.Matches (u : UserArg) (_d : ArgDef) (part : GoString) : Bool :=
  if u.RequireMention then HasPrefix part "<@".toList && HasSuffix part ">".toList
  else true

/-- The id text of a mention token: `part[2 : len(part)-1]` without a leading
`!`. -/
def mentionID (part : GoString) : GoString :=
  let id := (part.take (part.length - 1)).drop 2
  if id.head? = some '!' then id.drop 1 else id

/-- The loop `for _, v := range Mentions` that returns the first user whose
id is `parsed`. -/
def findMention (parsed : Int) (mentions : List User) : Option User :=
  mentions.find? (fun v => decide (parsed = v.ID))

/-- `UserArg.ParseFromMessage`. The error of `strconv.ParseInt` is discarded,
so `parsed` is the value returned beside it. Reading the mention list
dereferences `data.TraditionalTriggerData`. -/
def UserArg.ParseFromMessage (U : UnicodeTables) (hook : Option UsernameSearchFunc)
    (u : UserArg) (_d : ArgDef) (part : GoString) (data : Data) : Run (Value × Option Error) :=
  if HasPrefix part "<@".toList && decide (part.length > 3) then
    match data.TraditionalTriggerData with
    | none => Run.fault
    | some mentions =>
      match findMention (ParseInt (mentionID part)).1 mentions with
      | some v => Run.ret (Value.user v, none)
      | none => Run.ret (Value.nil, some (Error.ImproperMention part))
  else if !u.RequireMention then
    match data.GuildData with
    | some gs =>
      match FindDiscordMemberByName U hook gs part with
      | (some m, _) => Run.ret (Value.user m.DGoUser, none)
      | (none, err) => Run.ret (Value.nil, err)
    | none => Run.ret (Value.nil, some (Error.ImproperMention part))
  else Run.ret (Value.nil, some (Error.ImproperMention part))

/-! ## `ChannelArg` -/

/-- `ChannelArg.ParseFromMessage`. The map entry found under the id is a
pointer and is returned as it is, nil included. -/
def ChannelArg.ParseFromMessage (_d : ArgDef) (part : GoString) (data : Data) :
    Value × Option Error :=
  match data.GuildData with
  | none => (Value.nil, none)
  | some gs =>
    let r :=
      if HasPrefix part "<#".toList && decide (part.length > 3) then
        ParseInt ((part.take (part.length - 1)).drop 2)
      else ParseInt part
    if r.2 ≠ none then (Value.nil, some (Error.ImproperMention part))
    else
      match gs.Channels.lookup r.1 with
      | some (some c) => (Value.channelState c, none)
      | some none => (Value.nilPointer PointerKind.channelState, none)
      | none => (Value.nil, some (Error.ImproperMention part))

/-- `ChannelArg.ParseFromInteraction`. The result `channel` of `ExpectChannel`
is dereferenced by `channel.ID` before `err` is looked at. -/
def ChannelArg.ParseFromInteraction (U : UnicodeTables) (d : ArgDef) (data : Data)
    (options : SlashCommandsParseOptions) : Run (Value × Option Error) :=
  match data.GuildData with
  | none => Run.ret (Value.nil, none)
  | some gs =>
    let r := options.ExpectChannel U d.Name
    match r.1 with
    | none => Run.fault
    | some channel =>
      match gs.Channel channel.ID with
      | none => Run.ret (Value.nil, some Error.ErrChannelNotFound)
      | some cs => Run.ret (Value.channelState cs, r.2)

/-! ## `AdvUserArg` -/

/-- `AdvUserArg`. -/
structure AdvUserArg where
  EnableUserID : Bool
  EnableUsernameSearch : Bool
  RequireMembership : Bool

/-- `AdvUserArg.SearchID`. Both remote fetches are calls on `data.Session`,
a pointer that may be nil. -/
def AdvUserArg.SearchID (u : AdvUserArg) (parsed : Int) (data : Data) :
    Run (Option MemberState × Option User) :=
  let fallback : Run (Option MemberState × Option User) :=
    if u.RequireMembership then Run.ret (none, none)
    else
      match data.Session with
      | none => Run.fault
      | some session => Run.ret (none, (session.User parsed).1)
  match data.GuildData with
  | none => fallback
  | some gs =>
    match gs.MemberCopy parsed with
    | some member => Run.ret (some member, some member.DGoUser)
    | none =>
      match data.Session with
      | none => Run.fault
      | some session =>
        let r := session.GuildMember gs.ID parsed
        if r.2 = none then
          match MSFromDGoMember r.1 with
          | Run.fault => Run.fault
          | Run.ret member => Run.ret (some member, (r.1.bind (fun m => m.User)))
        else fallback

/-- `AdvUserArg.ParseMention`. -/
def AdvUserArg.ParseMention (_u : AdvUserArg) (_d : ArgDef) (part : GoString) (data : Data) :
    Run (Option User) :=
  match data.TraditionalTriggerData with
  | none => Run.fault
  | some mentions => Run.ret (findMention (ParseInt (mentionID part)).1 mentions)

/-- The end of `AdvUserArg.ParseFromMessage`, from the test
`ms == nil && user == nil` on. -/
def AdvUserArg.finish (u : AdvUserArg) (data : Data) (ms : Option MemberState)
    (user : Option User) (msFailed : Bool) : Run (Value × Option Error) :=
  match ms, user with
  | none, none => Run.ret (Value.nil, some (NewSimpleUserError "User/Member not found".toList))
  | some m, none => Run.ret (Value.advUserMatch { Member := some m, User := some m.DGoUser }, none)
  | none, some usr =>
    if !msFailed then
      match u.SearchID usr.ID data with
      | Run.fault => Run.fault
      | Run.ret r => Run.ret (Value.advUserMatch { Member := r.1, User := r.2 }, none)
    else Run.ret (Value.advUserMatch { Member := none, User := some usr }, none)
  | some m, some usr => Run.ret (Value.advUserMatch { Member := some m, User := some usr }, none)

/-- The middle of `AdvUserArg.ParseFromMessage`: the username search, run when
it is enabled, a guild is present and neither a member nor a user is held. -/
def AdvUserArg.searchName (U : UnicodeTables) (hook : Option UsernameSearchFunc)
    (u : AdvUserArg) (part : GoString) (data : Data) (ms : Option MemberState)
    (user : Option User) (msFailed : Bool) : Run (Value × Option Error) :=
  match data.GuildData with
  | some gs =>
    if u.EnableUsernameSearch && ms.isNone && user.isNone then
      match FindDiscordMemberByName U hook gs part with
      | (_, some err) => Run.ret (Value.nil, some err)
      | (found, none) => u.finish data found user msFailed
    else u.finish data ms user msFailed
  | none => u.finish data ms user msFailed

/-- `AdvUserArg.ParseFromMessage`: the mention, then the id search, then the
username search. -/
def AdvUserArg.ParseFromMessage (U : UnicodeTables) (hook : Option UsernameSearchFunc)
    (u : AdvUserArg) (d : ArgDef) (part : GoString) (data : Data) :
    Run (Value × Option Error) :=
  let mention : Run (Option User) :=
    if HasPrefix part "<@".toList && decide (part.length > 3) then u.ParseMention d part data
    else Run.ret none
  match mention with
  | Run.fault => Run.fault
  | Run.ret user =>
    if user.isNone && u.EnableUserID && decide ((ParseInt part).2 = none) then
      match u.SearchID (ParseInt part).1 data with
      | Run.fault => Run.fault
      | Run.ret r => u.searchName U hook part data r.1 r.2 r.1.isNone
    else u.searchName U hook part data none user false

/-- `AdvUserArg.ParseFromInteraction`. With the native user option present,
`data.GuildData.GS` is read, a dereference of `data.GuildData`. -/
def AdvUserArg.ParseFromInteraction (U : UnicodeTables) (u : AdvUserArg) (d : ArgDef)
    (data : Data) (options : SlashCommandsParseOptions) : Run (Value × Option Error) :=
  match options.ExpectUserOpt U d.Name with
  | (_, _, some err) => Run.ret (Value.nil, some err)
  | (user, true, none) =>
    match options.ExpectMember U d.Name with
    | Run.fault => Run.fault
    | Run.ret (_, some err) => Run.ret (Value.nil, some err)
    | Run.ret (member, none) =>
      match data.GuildData with
      | none => Run.fault
      | some _ =>
        match MSFromDGoMember member with
        | Run.fault => Run.fault
        | Run.ret ms => Run.ret (Value.advUserMatch { Member := some ms, User := user }, none)
  | (_, false, none) =>
    let r := options.ExpectInt64 U (d.Name ++ "-ID".toList)
    if r.2 ≠ none then Run.ret (Value.nil, r.2)
    else
      match u.SearchID r.1 data with
      | Run.fault => Run.fault
      | Run.ret m => Run.ret (Value.advUserMatch { Member := m.1, User := m.2 }, none)

/-! ## Example payloads and contexts -/

/-- An argument definition named `user`. -/
def defUser : ArgDef := { Name := "user".toList, Help := [], Default := Value.nil }

/-- An argument definition named `channel`. -/
def defChannel : ArgDef := { Name := "channel".toList, Help := [], Default := Value.nil }

/-- An option map with no entry. -/
def optionsEmpty : SlashCommandsParseOptions :=
  { Options := fun _ => none, Interaction := emptyResolved }

/-- An option map whose only key is `key`, holding `v`. -/
def optionsSingle (key : String) (v : Value) : SlashCommandsParseOptions :=
  { Options := fun k => if k = key.toList then some ⟨key.toList, v⟩ else none,
    Interaction := emptyResolved }

/-- A guild with no member and no channel in its directory. -/
def guildEmpty : GuildState := { ID := 1, Members := [], Channels := [] }

/-- A session whose guild-member fetch fails for every id and whose user fetch
returns a user record for every id. -/
def sessionNoMember : Session :=
  { GuildMember := fun _ _ => (none, some (NewSimpleUserError "Unknown Member".toList)),
    User := fun id => (some { ID := id, Username := "visitor".toList }, none) }

/-- A session whose two fetches fail for every id. -/
def sessionNothing : Session :=
  { GuildMember := fun _ _ => (none, some (NewSimpleUserError "Unknown Member".toList)),
    User := fun _ => (none, some (NewSimpleUserError "Unknown User".toList)) }

/-- An invocation in the empty guild, with the given mention list and session. -/
def dataInGuild (mentions : Option (List User)) (session : Session) : Data :=
  { GuildData := some guildEmpty, TraditionalTriggerData := mentions, Session := some session }

/-- A directory holding the users `Bob` and `bob`, enumerated in that order. -/
def guildBobThenLower : GuildState :=
  { ID := 1,
    Members := [(1, some (memberNamed 1 "Bob")), (2, some (memberNamed 2 "bob"))],
    Channels := [] }

/-- The same directory, enumerated in the other order. -/
def guildLowerThenBob : GuildState :=
  { ID := 1,
    Members := [(2, some (memberNamed 2 "bob")), (1, some (memberNamed 1 "Bob"))],
    Channels := [] }

/-- The four outcomes of the username search. -/
inductive SearchClass where
  | unique
  | notFound
  | tooMany
  | didYouMean
  | other
  deriving DecidableEq, Repr

/-- The outcome a result of the search belongs to, read off the member, the
error and the opening words of the message. -/
def classOf : Option MemberState × Option Error → SearchClass
  | (some _, none) => SearchClass.unique
  | (none, some (Error.UserNotFound _)) => SearchClass.notFound
  | (none, some (Error.SimpleUserError msg)) =>
    if "Too many users with that name, ".toList.isPrefixOf msg then SearchClass.tooMany
    else if "Did you mean one of these? ".toList.isPrefixOf msg then SearchClass.didYouMean
    else SearchClass.other
  | _ => SearchClass.other

/-! ## `ParsedArg` and its typed accessors -/

/-- `ParsedArg`; `Raw` holds the text of the raw argument, nil for an
interaction. -/
structure ParsedArg where
  Def : ArgDef
  Value : Value
  Raw : Option GoString

/-- `ArgDef.NewParsedDef`. -/
def ArgDef.NewParsedDef (d : ArgDef) : ParsedArg := { Def := d, Value := d.Default, Raw := none }

/-- `NewParsedArgs`. -/
def NewParsedArgs (defs : List ArgDef) : List ParsedArg := defs.map ArgDef.NewParsedDef

/-- A conversion to a signed integer type of `bits` bits: the value modulo
`2 ^ bits`, read in two's complement. -/
def wrapSigned (bits : Nat) (v : Int) : Int :=
  (v + 2 ^ (bits - 1)) % 2 ^ bits - 2 ^ (bits - 1)

/-- `ParsedArg.Int64`. -/
def ParsedArg.Int64 (p : ParsedArg) : Int :=
  match p.Value with
  | Value.int t => t
  | Value.uint t => wrapSigned 64 t
  | Value.int32 t => t
  | Value.int64 t => t
  | Value.uint32 t => t
  | Value.uint64 t => wrapSigned 64 t
  | _ => 0

/-- `ParsedArg.Int`; `intBits` is the size of `int` on the platform, 32 or 64. -/
def ParsedArg.Int (intBits : Nat) (p : ParsedArg) : Int :=
  match p.Value with
  | Value.int t => t
  | Value.uint t => wrapSigned intBits t
  | Value.int32 t => t
  | Value.int64 t => wrapSigned intBits t
  | Value.uint32 t => wrapSigned intBits t
  | Value.uint64 t => wrapSigned intBits t
  | _ => 0

/-- `ParsedArg.Str`. -/
def ParsedArg.Str (p : ParsedArg) : GoString :=
  match p.Value with
  | Value.string t => t
  | Value.int _ => FormatInt p.Int64
  | Value.int32 _ => FormatInt p.Int64
  | Value.int64 _ => FormatInt p.Int64
  | Value.uint _ => FormatInt p.Int64
  | Value.uint32 _ => FormatInt p.Int64
  | Value.uint64 _ => FormatInt p.Int64
  | _ => []

/-- `ParsedArg.Bool`. -/
def ParsedArg.Bool (p : ParsedArg) : Bool :=
  match p.Value with
  | Value.bool t => t
  | Value.int _ => decide (p.Int64 > 0)
  | Value.int32 _ => decide (p.Int64 > 0)
  | Value.int64 _ => decide (p.Int64 > 0)
  | Value.uint _ => decide (p.Int64 > 0)
  | Value.uint32 _ => decide (p.Int64 > 0)
  | Value.uint64 _ => decide (p.Int64 > 0)
  | Value.string t => decide (t ≠ [])
  | _ => false

/-- `ParsedArg.MemberState`. A stored nil `*dstate.MemberState` is returned as
it is; on a stored nil `*AdvUserMatch` the read of `t.Member` is a panic. -/
def ParsedArg.MemberState (p : ParsedArg) : Run (Option MemberState) :=
  match p.Value with
  | Value.memberState t => Run.ret (some t)
  | Value.nilPointer PointerKind.memberState => Run.ret none
  | Value.advUserMatch t => Run.ret t.Member
  | Value.nilPointer PointerKind.advUserMatch => Run.fault
  | _ => Run.ret none

/-- `ParsedArg.User`. On a stored nil `*dstate.MemberState` the call
`t.DGoUser()` reads `m.ID`, and on a stored nil `*AdvUserMatch` `t.User` is
read: both are panics. -/
def ParsedArg.User (p : ParsedArg) : Run (Option User) :=
  match p.Value with
  | Value.memberState t => Run.ret (some t.DGoUser)
  | Value.nilPointer PointerKind.memberState => Run.fault
  | Value.advUserMatch t => Run.ret t.User
  | Value.nilPointer PointerKind.advUserMatch => Run.fault
  | _ => Run.ret none

/-- `ParsedArg.AdvUser`. A stored nil `*AdvUserMatch` is returned as it is. -/
def ParsedArg.AdvUser (p : ParsedArg) : Run (Option AdvUserMatch) :=
  match p.Value with
  | Value.advUserMatch t => Run.ret (some t)
  | Value.nilPointer PointerKind.advUserMatch => Run.ret none
  | _ => Run.ret none

/-- The dynamic kinds named in the integer `case` of the accessors: `int`,
`int32`, `int64`, `uint`, `uint32`, `uint64`. -/
def Value.isIntegerKind : Value → Bool
  | Value.int _ => true
  | Value.int32 _ => true
  | Value.int64 _ => true
  | Value.uint _ => true
  | Value.uint32 _ => true
  | Value.uint64 _ => true
  | _ => false

/-- The value is a `string`. -/
def Value.isStringKind : Value → Bool
  | Value.string _ => true
  | _ => false

/-- The value is a `bool`. -/
def Value.isBoolKind : Value → Bool
  | Value.bool _ => true
  | _ => false

/-- The value is a `*dstate.MemberState`, nil or not. -/
def Value.isMemberStateKind : Value → Bool
  | Value.memberState _ => true
  | Value.nilPointer PointerKind.memberState => true
  | _ => false

/-- The value is an `*AdvUserMatch`, nil or not. -/
def Value.isAdvUserMatchKind : Value → Bool
  | Value.advUserMatch _ => true
  | Value.nilPointer PointerKind.advUserMatch => true
  | _ => false

/-- The value is a nil pointer stored in the interface. -/
def Value.isNilPointer : Value → Bool
  | Value.nilPointer _ => true
  | _ => false

/-! ## `float64` and `FloatArg` -/

/-- A `float64` bit pattern is a NaN: exponent all ones and a non-zero
fraction. -/
def f64IsNaN (b : Nat) : Bool := decide (b / 2 ^ 52 % 2 ^ 11 = 2047 ∧ b % 2 ^ 52 ≠ 0)

/-- The place of a `float64` that is not a NaN in the order of the reals: the
63 low bits, counted negative when the sign bit is set; both zeros are at 0. -/
def f64Key (b : Nat) : Int :=
  if b / 2 ^ 63 % 2 = 1 then -((b % 2 ^ 63 : Nat) : Int) else ((b % 2 ^ 63 : Nat) : Int)

/-- The comparison `a < b` of two `float64`: false when either is a NaN. -/
def f64Lt (a b : Nat) : Bool := !f64IsNaN a && !f64IsNaN b && decide (f64Key a < f64Key b)

/-- The comparison `a != b` of two `float64`: true when either is a NaN. -/
def f64Ne (a b : Nat) : Bool := f64IsNaN a || f64IsNaN b || decide (f64Key a ≠ f64Key b)

/-- The comparison `a <= b` of two `float64`: false when either is a NaN. -/
def f64Le (a b : Nat) : Bool := !f64IsNaN a && !f64IsNaN b && decide (f64Key a ≤ f64Key b)

/-- The bits of `math.NaN()`. -/
def f64NaN : Nat := 0x7FF8000000000001

/-- The bits of `math.Inf(1)` and of `math.Inf(-1)`. -/
def f64Inf (neg : Bool) : Nat := if neg then 0xFFF0000000000000 else 0x7FF0000000000000

/-- `commonPrefixLenIgnoreCase` of package `strconv`: `prefix` is lower case. -/
def commonPrefixLenIgnoreCase : GoString → GoString → Nat
  | c :: s, p :: ps => if lowerByte c ≠ p then 0 else commonPrefixLenIgnoreCase s ps + 1
  | _, _ => 0

/-- The `inf` and `infinity` case of `special`, entered on `i`, `I` and, after
the sign is cut off, on `+` and `-`: the value and the bytes consumed. -/
def specialInf (neg : Bool) (nsign : Nat) (s : GoString) : Option (Nat × Nat) :=
  let n := commonPrefixLenIgnoreCase s "infinity".toList
  let n := if 3 < n ∧ n < 8 then 3 else n
  if n = 3 ∨ n = 8 then some (f64Inf neg, nsign + n) else none

/-- `special` of package `strconv`: the value and length of a leading `inf`,
`infinity` (possibly signed) or `nan`, ignoring case. -/
def special (s : GoString) : Option (Nat × Nat) :=
  match s with
  | [] => none
  | c :: rest =>
    if c = '+' ∨ c = '-' then specialInf (decide (c = '-')) 1 rest
    else if c = 'i' ∨ c = 'I' then specialInf false 0 s
    else if c = 'n' ∨ c = 'N' then
      if commonPrefixLenIgnoreCase s "nan".toList = 3 then some (f64NaN, 3) else none
    else none

/-- The conversion of a numeral that `strconv.ParseFloat` performs when the
text is not one of the special values: a parameter of the embedding. -/
structure FloatConversion where
  /-- The value and error for the text of a numeral. -/
  atof : GoString → Nat × Option NumErr

/-- `strconv.ParseFloat(s, 64)`: a special value must span the whole text;
any other text is converted as a numeral. -/
def ParseFloat (F : FloatConversion) (s : GoString) : Nat × Option NumErr :=
  match special s with
  | some r => if r.2 ≠ s.length then (0, some NumErr.ErrSyntax) else (r.1, none)
  | none => F.atof s

/-- The error a failed `strconv.ParseFloat(s, 64)` returns. -/
def parseFloatError (s : GoString) (e : NumErr) : Error :=
  Error.NumError "ParseFloat".toList s e

/-- `FloatArg`: the bounds are `float64` values. -/
structure FloatArg where
  Min : Nat
  Max : Nat

/-- `FloatArg.ParseFromMessage`. -/
def FloatArg.ParseFromMessage (F : FloatConversion) (f : FloatArg) (d : ArgDef)
    (part : GoString) (_data : Data) : Value × Option Error :=
  let r := ParseFloat F part
  if r.2 ≠ none then (Value.nil, some (Error.InvalidFloat part))
  else if f64Ne f.Max f.Min ∧ (f64Lt f.Max r.1 ∨ f64Lt r.1 f.Min) then
    (Value.nil, some (Error.OutOfRangeError d.Name (Value.float64 r.1) (Value.float64 f.Min)
      (Value.float64 f.Max) true))
  else (Value.float64 r.1, none)

/-- `FloatArg.ParseFromInteraction`. -/
def FloatArg.ParseFromInteraction (U : UnicodeTables) (F : FloatConversion) (f : FloatArg)
    (d : ArgDef) (_data : Data) (options : SlashCommandsParseOptions) : Value × Option Error :=
  let s := options.ExpectString U d.Name
  if s.2 ≠ none then (Value.nil, s.2)
  else
    let r := ParseFloat F s.1
    if r.2 ≠ none then (Value.nil, r.2.map (parseFloatError s.1))
    else if f64Ne f.Max f.Min ∧ (f64Lt f.Max r.1 ∨ f64Lt r.1 f.Min) then
      (Value.nil, some (Error.OutOfRangeError d.Name (Value.float64 r.1) (Value.float64 f.Min)
        (Value.float64 f.Max) true))
    else (Value.float64 r.1, none)

/-- The bits of the `float64` value 0. -/
def f64Zero : Nat := 0

/-- The bits of the `float64` value 10. -/
def f64Ten : Nat := 0x4024000000000000

/-- A definition named `n`. -/
def defN : ArgDef := { Name := "n".toList, Help := [], Default := Value.nil }

/-- Resolved tables whose `Members` table holds, under the id 5, a member that
carries its user, and whose `Users` table is empty. -/
def resolvedMemberOnly : Resolved :=
  { Users := fun _ => none,
    Members := fun id =>
      if id = 5 then
        some (some { User := some { ID := 5, Username := "visitor".toList }, Nick := [],
                     Roles := [] })
      else none,
    Roles := fun _ => none,
    Channels := fun _ => none }

/-- A payload whose option `user` holds the id 5, with `resolvedMemberOnly`. -/
def optionsMemberOnly : SlashCommandsParseOptions :=
  { Options := fun k => if k = "user".toList then some ⟨"user".toList, Value.int64 5⟩ else none,
    Interaction := resolvedMemberOnly }

/-- An argument definition named `n` whose `Help` is the single byte `0xFF`,
which is not valid UTF-8. -/
def defInvalidHelp : ArgDef :=
  { Name := "n".toList, Help := [Char.ofNat 0xFF], Default := Value.nil }

/-! ## Decimal text round trip -/

theorem digitByte_spec (d : Nat) (h : d < 10) :
    ('0' ≤ digitByte d ∧ digitByte d ≤ '9') ∧ (digitByte d).toNat - 48 = d := by
  interval_cases d <;> decide

theorem parseUintLoop_digit (d : Nat) (h : d < 10) (rest : GoString) (n : Nat)
    (hn : n * 10 + d ≤ maxUint64) :
    parseUintLoop (digitByte d :: rest) n = parseUintLoop rest (n * 10 + d) := by
  obtain ⟨hd, hv⟩ := digitByte_spec d h
  have h1 : ¬ (n ≥ maxUint64 / 10 + 1) := by
    simp only [maxUint64] at hn ⊢; omega
  simp only [parseUintLoop, hd, hv, and_self, if_true, h1, if_false]
  rw [if_neg (by omega)]

theorem parseUintLoop_formatBits (fuel : Nat) : ∀ (u : Nat) (rest : GoString),
    u < 10 ^ fuel → u ≤ maxUint64 →
    parseUintLoop (formatBits fuel u ++ rest) 0 = parseUintLoop rest u := by
  induction fuel with
  | zero =>
    intro u rest hu _
    have : u = 0 := by simpa using hu
    subst this; simp [formatBits]
  | succ fuel ih =>
    intro u rest hu hmax
    unfold formatBits
    split
    · rename_i hlt
      have := parseUintLoop_digit u hlt rest 0 (by simpa using hmax)
      simpa using this
    · rename_i hge
      have hdiv : u / 10 < 10 ^ fuel := by
        rw [Nat.div_lt_iff_lt_mul (by decide)]; rw [pow_succ] at hu; exact hu
      have hdm : u / 10 ≤ maxUint64 := le_trans (Nat.div_le_self _ _) hmax
      rw [List.append_assoc, ih (u / 10) _ hdiv hdm]
      have hmod : u % 10 < 10 := Nat.mod_lt _ (by decide)
      have heq : u / 10 * 10 + u % 10 = u := by omega
      have := parseUintLoop_digit (u % 10) hmod rest (u / 10) (by rw [heq]; exact hmax)
      simpa [heq] using this

theorem formatBits_head (fuel u : Nat) :
    ∃ c rest, formatBits (fuel + 1) u = c :: rest ∧ '0' ≤ c ∧ c ≤ '9' := by
  induction fuel generalizing u with
  | zero =>
    unfold formatBits
    split
    · rename_i h; exact ⟨_, [], rfl, (digitByte_spec u h).1⟩
    · rename_i h
      simp only [formatBits, List.nil_append]
      exact ⟨_, [], rfl, (digitByte_spec (u % 10) (Nat.mod_lt _ (by decide))).1⟩
  | succ fuel ih =>
    rw [formatBits]
    split
    · rename_i h; exact ⟨_, [], rfl, (digitByte_spec u h).1⟩
    · obtain ⟨c, rest, hc, hd⟩ := ih (u / 10)
      rw [hc]; exact ⟨c, rest ++ _, rfl, hd⟩

theorem ParseUint_FormatUint (u : Nat) (h : u ≤ maxUint64) :
    ParseUint (FormatUint u) = (u, none) := by
  obtain ⟨c, rest, hc, -⟩ := formatBits_head 19 u
  have h2 := parseUintLoop_formatBits 20 u [] (by simp only [maxUint64] at h; omega) h
  simp only [List.append_nil] at h2
  unfold ParseUint FormatUint
  rw [hc] at h2 ⊢
  simpa [parseUintLoop] using h2

theorem ParseInt_FormatInt (v : Int) (hv : isInt64 v) : ParseInt (FormatInt v) = (v, none) := by
  obtain ⟨hlo, hhi⟩ := hv
  unfold FormatInt
  split
  · rename_i hneg
    have hb : v.natAbs ≤ 2 ^ 63 := by omega
    have hp := ParseUint_FormatUint v.natAbs (by simp only [maxUint64]; omega)
    simp only [ParseInt]
    simp only [decide_True, reduceCtorEq, or_true, if_true, Bool.not_true, Bool.false_and,
      Bool.true_and, hp, if_false, decide_eq_true_eq]
    rw [if_neg (by omega)]
    simp only [Bool.false_eq_true, if_false, Prod.mk.injEq, and_true]
    omega
  · rename_i hpos
    obtain ⟨c, rest, hc, hd⟩ := formatBits_head 19 v.natAbs
    have hb : v.natAbs < 2 ^ 63 := by omega
    have hp := ParseUint_FormatUint v.natAbs (by simp only [maxUint64]; omega)
    have hc1 : c ≠ '+' := by rintro rfl; exact absurd hd.1 (by decide)
    have hc2 : c ≠ '-' := by rintro rfl; exact absurd hd.1 (by decide)
    unfold FormatUint at hp ⊢
    rw [hc] at hp ⊢
    simp only [ParseInt, hc1, hc2, or_self, if_false, hp]
    simp only [decide_False, reduceCtorEq, if_false, Bool.not_false, Bool.true_and,
      Bool.false_and, decide_eq_true_eq, Bool.false_eq_true]
    rw [if_neg (by omega)]
    simp only [Prod.mk.injEq, and_true]
    omega

/-! ## The member scan -/

theorem membersWhere_cons_false (p : Option MemberState → Bool) (o : Option MemberState)
    (ms : List (Option MemberState)) (h : p o = false) :
    membersWhere p (o :: ms) = membersWhere p ms := by
  simp [membersWhere, List.filter_cons, h]

theorem membersWhere_cons_true (p : Option MemberState → Bool) (v : MemberState)
    (ms : List (Option MemberState)) (h : p (some v) = true) :
    membersWhere p (some v :: ms) = v :: membersWhere p ms := by
  simp [membersWhere, List.filter_cons, h]

theorem uptoFull_cons_false (U : UnicodeTables) (str : GoString) (k : Nat)
    (o : Option MemberState) (rest : List (Option MemberState))
    (h : isFullMatch U str o = false) :
    uptoFull U str (k + 1) (o :: rest) = o :: uptoFull U str (k + 1) rest := by
  simp [uptoFull, h]

theorem uptoFull_cons_true (U : UnicodeTables) (str : GoString) (k : Nat)
    (o : Option MemberState) (rest : List (Option MemberState))
    (h : isFullMatch U str o = true) :
    uptoFull U str (k + 1) (o :: rest) = o :: uptoFull U str k rest := by
  simp [uptoFull, h]

theorem scanMembers_eq (U : UnicodeTables) (str : GoString) :
    ∀ (ms : List (Option MemberState)) (k : Nat) (fullMatches partialMatches : List MemberState),
      fullMatches.length + (k + 1) = 5 →
      scanMembers U str (ToLower U str) ms fullMatches partialMatches =
        (fullMatches ++ (membersWhere (isFullMatch U str) ms).take (k + 1),
         partialMatches ++ (membersWhere (isPartialMatch U str)
            (uptoFull U str (k + 1) ms)).take (5 - partialMatches.length)) := by
  intro ms
  induction ms with
  | nil => intro k f p _; simp [scanMembers, membersWhere, uptoFull]
  | cons o rest ih =>
    intro k f p hk
    cases o with
    | none =>
      have h1 : isFullMatch U str none = false := rfl
      have h2 : isPartialMatch U str none = false := rfl
      rw [scanMembers, ih k f p hk, membersWhere_cons_false _ _ _ h1,
        uptoFull_cons_false U str k _ _ h1, membersWhere_cons_false _ _ _ h2]
    | some v =>
      by_cases hu : v.Username = []
      · have h1 : isFullMatch U str (some v) = false := by simp [isFullMatch, hu]
        have h2 : isPartialMatch U str (some v) = false := by
          simp [isPartialMatch, containsQuery, hu]
        rw [scanMembers, if_pos hu, ih k f p hk, membersWhere_cons_false _ _ _ h1,
          uptoFull_cons_false U str k _ _ h1, membersWhere_cons_false _ _ _ h2]
      · by_cases hf : fullMatch U str v = true
        · have h1 : isFullMatch U str (some v) = true := by simp [isFullMatch, hu, hf]
          have h2 : isPartialMatch U str (some v) = false := by simp [isPartialMatch, h1]
          rw [membersWhere_cons_true _ _ _ h1, uptoFull_cons_true U str k _ _ h1,
            membersWhere_cons_false _ _ _ h2, scanMembers, if_neg hu, if_pos hf]
          cases k with
          | zero =>
            rw [if_pos (by simp; omega)]
            simp [MemberState.Copy, uptoFull, membersWhere]
          | succ k =>
            rw [if_neg (by simp; omega), ih k (f ++ [v.Copy]) p (by simp; omega)]
            simp [MemberState.Copy]
        · have h1 : isFullMatch U str (some v) = false := by simp [isFullMatch, hf]
          rw [membersWhere_cons_false _ _ _ h1, uptoFull_cons_false U str k _ _ h1,
            scanMembers, if_neg hu, if_neg hf]
          by_cases hp : p.length < 5
          · rw [if_pos hp]
            by_cases hc : partialMatch U (ToLower U str) v = true
            · have h2 : isPartialMatch U str (some v) = true := by
                simp [isPartialMatch, containsQuery, h1, hu, hc]
              rw [if_pos hc, ih k f (p ++ [v]) hk, membersWhere_cons_true _ _ _ h2]
              have : 5 - p.length = (5 - (p ++ [v]).length) + 1 := by simp; omega
              rw [this, List.take_succ_cons]
              simp
            · have h2 : isPartialMatch U str (some v) = false := by
                simp [isPartialMatch, containsQuery, hc]
              rw [if_neg hc, ih k f p hk, membersWhere_cons_false _ _ _ h2]
          · rw [if_neg hp, ih k f p hk]
            have : 5 - p.length = 0 := by omega
            simp [this]

/-! ## Integer and user-id arguments -/

theorem FormatInt_head (v : Int) :
    ∃ c rest, FormatInt v = c :: rest ∧ (c = '-' ∨ ('0' ≤ c ∧ c ≤ '9')) := by
  unfold FormatInt FormatUint
  split
  · exact ⟨'-', _, rfl, Or.inl rfl⟩
  · obtain ⟨c, rest, hc, hd⟩ := formatBits_head 19 v.natAbs
    exact ⟨c, rest, hc, Or.inr hd⟩

theorem take_drop_mention (pre : GoString) (body : GoString) (c : Char) (hpre : pre.length = 2) :
    ((pre ++ body ++ [c]).take ((pre ++ body ++ [c]).length - 1)).drop 2 = body := by
  have h1 : (pre ++ body ++ [c]).length - 1 = (pre ++ body).length := by simp
  rw [h1, List.take_left, ← hpre, List.drop_left]

theorem UserIDArg_ParseFromMessage_mention (d : ArgDef) (data : Data) (body : GoString)
    (c : Char) (hb : body ≠ []) :
    UserIDArg.ParseFromMessage d ('<' :: '@' :: (body ++ [c])) data =
      if (ParseInt (if body.head? = some '!' then body.drop 1 else body)).2 ≠ none then
        (Value.nil, some (Error.ImproperMention ('<' :: '@' :: (body ++ [c]))))
      else (Value.int64 (ParseInt (if body.head? = some '!' then body.drop 1 else body)).1,
        none) := by
  have hpre : HasPrefix ('<' :: '@' :: (body ++ [c])) "<@".toList = true := by
    simp [HasPrefix, List.isPrefixOf]
  have hlen : ('<' :: '@' :: (body ++ [c])).length > 3 := by
    have : 0 < body.length := List.length_pos.mpr hb
    simp only [List.length_cons, List.length_append, List.length_nil]; omega
  have hid := take_drop_mention ['<', '@'] body c rfl
  simp only [List.cons_append, List.nil_append] at hid
  unfold UserIDArg.ParseFromMessage
  rw [hpre, decide_eq_true hlen]
  simp only [Bool.and_self, if_true, hid]

/-- C1: for every `int64` value `v` and every `IntArg`, parsing the base-10
text of `v` from a message returns `v` with no error when `Min = Max`; when
`Min ≠ Max` it returns `v` with no error exactly when `Min ≤ v ≤ Max`, and
otherwise returns the `OutOfRangeError` carrying the argument name, `Got = v`,
`Min` and `Max`. -/
theorem IntArg_ParseFromMessage_decimal (i : IntArg) (d : ArgDef) (data : Data) (v : Int)
    (hv : isInt64 v) :
    (i.Min = i.Max → i.ParseFromMessage d (FormatInt v) data = (Value.int64 v, none)) ∧
    (i.Min ≠ i.Max →
      (i.ParseFromMessage d (FormatInt v) data = (Value.int64 v, none) ↔
        (i.Min ≤ v ∧ v ≤ i.Max)) ∧
      (¬ (i.Min ≤ v ∧ v ≤ i.Max) →
        i.ParseFromMessage d (FormatInt v) data =
          (Value.nil, some (Error.OutOfRangeError d.Name (Value.int64 v) (Value.int64 i.Min)
            (Value.int64 i.Max) false)))) := by
  have hp := ParseInt_FormatInt v hv
  refine ⟨fun h => ?_, fun h => ⟨⟨fun hr => ?_, fun hr => ?_⟩, fun hr => ?_⟩⟩
  · simp [IntArg.ParseFromMessage, hp, h]
  · by_contra hc
    have hor : i.Max < v ∨ i.Min > v := by omega
    simp [IntArg.ParseFromMessage, hp, Ne.symm h, hor] at hr
  · have hor : ¬ (i.Max < v ∨ i.Min > v) := by omega
    simp [IntArg.ParseFromMessage, hp, hor]
  · have hor : i.Max < v ∨ i.Min > v := by omega
    simp [IntArg.ParseFromMessage, hp, Ne.symm h, hor]

/-- A use of `IntArg_ParseFromMessage_decimal` with the bounds `[1, 10]`: the
text of `42` is rejected as out of range. -/
theorem IntArg_ParseFromMessage_decimal_witness :
    isInt64 42 ∧
    IntArg.ParseFromMessage ⟨1, 10, false⟩ ⟨"n".toList, [], Value.nil⟩ (FormatInt 42)
        ⟨none, none, none⟩ =
      (Value.nil, some (Error.OutOfRangeError "n".toList (Value.int64 42) (Value.int64 1)
        (Value.int64 10) false)) :=
  ⟨by decide,
   ((IntArg_ParseFromMessage_decimal ⟨1, 10, false⟩ ⟨"n".toList, [], Value.nil⟩
      ⟨none, none, none⟩ 42 (by decide)).2 (by decide)).2 (by decide)⟩

/-- C6: for every `int64` value `n` with base-10 text `d` and every invocation
context, `UserIDArg.ParseFromMessage` returns `n` with no error on the tokens
`<@d>`, `<@!d>` and `d`; and for every token the result is the same under
every definition and context. -/
theorem UserIDArg_ParseFromMessage_id (d : ArgDef) (data : Data) (n : Int) (hn : isInt64 n) :
    UserIDArg.ParseFromMessage d ("<@".toList ++ FormatInt n ++ ">".toList) data =
      (Value.int64 n, none) ∧
    UserIDArg.ParseFromMessage d ("<@!".toList ++ FormatInt n ++ ">".toList) data =
      (Value.int64 n, none) ∧
    UserIDArg.ParseFromMessage d (FormatInt n) data = (Value.int64 n, none) ∧
    ∀ (part : GoString) (d2 : ArgDef) (data2 : Data),
      UserIDArg.ParseFromMessage d part data = UserIDArg.ParseFromMessage d2 part data2 := by
  have hp := ParseInt_FormatInt n hn
  obtain ⟨c, rest, hc, hd⟩ := FormatInt_head n
  have hne : c ≠ '!' := by
    rcases hd with h | h
    · rw [h]; decide
    · rintro rfl; exact absurd h.1 (by decide)
  have hlt : c ≠ '<' := by
    rcases hd with h | h
    · rw [h]; decide
    · rintro rfl; exact absurd h.2 (by decide)
  have hnil : FormatInt n ≠ [] := by rw [hc]; simp
  refine ⟨?_, ?_, ?_, fun _ _ _ => rfl⟩
  · have h := UserIDArg_ParseFromMessage_mention d data (FormatInt n) '>' hnil
    have hh : (FormatInt n).head? ≠ some '!' := by rw [hc]; simpa using hne
    rw [if_neg hh, hp] at h
    simpa using h
  · have h := UserIDArg_ParseFromMessage_mention d data ('!' :: FormatInt n) '>' (by simp)
    simp only [List.head?_cons, if_true, List.drop_succ_cons, List.drop_zero, hp] at h
    simpa using h
  · have hpre : HasPrefix (FormatInt n) ['<', '@'] = false := by
      rw [hc]; simp [HasPrefix, List.isPrefixOf, Ne.symm hlt]
    have hpre2 : ¬ (HasPrefix (FormatInt n) ['<', '@'] = true) := by simp [hpre]
    simp [UserIDArg.ParseFromMessage, hpre2, hp]

/-- A use of `UserIDArg_ParseFromMessage_id` at the id `123` with an empty
context. -/
theorem UserIDArg_ParseFromMessage_id_witness :
    isInt64 123 ∧
    UserIDArg.ParseFromMessage ⟨"u".toList, [], Value.nil⟩
      ("<@!".toList ++ FormatInt 123 ++ ">".toList) ⟨none, none, none⟩ = (Value.int64 123, none) :=
  ⟨by decide,
   (UserIDArg_ParseFromMessage_id ⟨"u".toList, [], Value.nil⟩ ⟨none, none, none⟩ 123
      (by decide)).2.1⟩

/-- C7: on the token `<@123`, which begins with `<@` and lacks the closing
`>`, `UserIDArg.Matches` answers false, yet `UserIDArg.ParseFromMessage`
returns the id `12` with no error instead of an `ImproperMention` error: the
last byte is cut off without being checked. -/
theorem UserIDArg_ParseFromMessage_unclosed (d : ArgDef) (data : Data) :
    HasPrefix "<@123".toList "<@".toList = true ∧
    HasSuffix "<@123".toList ">".toList = false ∧
    UserIDArg.Matches d "<@123".toList = false ∧
    UserIDArg.ParseFromMessage d "<@123".toList data = (Value.int64 12, none) ∧
    UserIDArg.ParseFromMessage d "<@123".toList data ≠
      (Value.nil, some (Error.ImproperMention "<@123".toList)) := by
  have h : UserIDArg.ParseFromMessage d "<@123".toList data = (Value.int64 12, none) := rfl
  refine ⟨by decide, by decide, rfl, h, ?_⟩
  rw [h]; decide

theorem digitChar_eq_digitByte (d : Nat) (h : d < 10) : Nat.digitChar d = digitByte d := by
  interval_cases d <;> rfl

theorem toDigitsCore_eq_formatBits (fuel : Nat) : ∀ (gas u : Nat) (ds : List Char),
    u < 10 ^ fuel → u < gas → 0 < fuel →
    Nat.toDigitsCore 10 gas u ds = formatBits fuel u ++ ds := by
  induction fuel with
  | zero => intro gas u ds _ _ h; omega
  | succ fuel ih =>
    intro gas u ds hu hg _
    cases gas with
    | zero => omega
    | succ gas =>
      rw [Nat.toDigitsCore, formatBits]
      by_cases hlt : u < 10
      · have h0 : u / 10 = 0 := Nat.div_eq_of_lt hlt
        simp [h0, hlt, Nat.mod_eq_of_lt hlt, digitChar_eq_digitByte u hlt]
      · have hne : u / 10 ≠ 0 := by omega
        have hdiv : u / 10 < 10 ^ fuel := by
          rw [Nat.div_lt_iff_lt_mul (by decide)]; rw [pow_succ] at hu; exact hu
        have hf : 0 < fuel := by
          rcases Nat.eq_zero_or_pos fuel with h | h
          · subst h; simp at hdiv; omega
          · exact h
        simp only [hne, if_false, hlt]
        rw [ih gas (u / 10) _ hdiv (by omega) hf,
          digitChar_eq_digitByte _ (Nat.mod_lt _ (by decide))]
        simp

/-- The text written by `FormatUint` is the decimal text that `Nat.toDigits`
gives. -/
theorem FormatUint_eq_toDigits (u : Nat) (h : u ≤ maxUint64) :
    FormatUint u = Nat.toDigits 10 u := by
  have := toDigitsCore_eq_formatBits 20 (u + 1) u []
    (by simp only [maxUint64] at h; omega) (by omega) (by decide)
  simpa [Nat.toDigits, FormatUint] using this.symm

theorem parseUintLoop_range (s : GoString) : ∀ (n : Nat),
    (parseUintLoop s n).2 = some NumErr.ErrRange → (parseUintLoop s n).1 = maxUint64 := by
  induction s with
  | nil => intro n h; simp [parseUintLoop] at h
  | cons c cs ih =>
    intro n h
    rw [parseUintLoop] at h ⊢
    split_ifs at h ⊢ with h1 h2 h3
    · rfl
    · rfl
    · exact ih _ h
    · simp at h

theorem parseUintLoop_closing (s : GoString) : ∀ (n : Nat),
    (parseUintLoop (s ++ ['>']) n).2 ≠ none := by
  induction s with
  | nil => intro n; simp [parseUintLoop]
  | cons c cs ih =>
    intro n
    rw [List.cons_append, parseUintLoop]
    split_ifs with h1 h2 h3
    · simp
    · simp
    · exact ih _
    · simp

theorem ParseInt_of_ParseUint_error (c : Char) (rest body : GoString)
    (hbody : body = if c = '+' ∨ c = '-' then rest else c :: rest)
    (h : (ParseUint body).2 ≠ none) : (ParseInt (c :: rest)).2 ≠ none := by
  rw [ParseInt]
  simp only [← hbody]
  cases herr : (ParseUint body).2 with
  | none => exact absurd herr h
  | some e =>
    cases e with
    | ErrSyntax => simp
    | ErrRange =>
      have hv : (ParseUint body).1 = maxUint64 := by
        unfold ParseUint at herr ⊢
        cases body with
        | nil => simp at herr
        | cons b bs => exact parseUintLoop_range _ _ herr
      simp only [hv, maxUint64]
      by_cases hneg : c = '-' <;> simp [hneg]

theorem ParseInt_closing (s : GoString) : (ParseInt (s ++ ['>'])).2 ≠ none := by
  have hU : ∀ t : GoString, (ParseUint (t ++ ['>'])).2 ≠ none := by
    intro t
    have := parseUintLoop_closing t 0
    cases t <;> simpa [ParseUint] using this
  cases s with
  | nil => exact ParseInt_of_ParseUint_error '>' [] ['>'] (by decide) (hU [])
  | cons c cs =>
    rw [List.cons_append]
    by_cases hs : c = '+' ∨ c = '-'
    · exact ParseInt_of_ParseUint_error c (cs ++ ['>']) (cs ++ ['>']) (by simp [hs]) (hU cs)
    · exact ParseInt_of_ParseUint_error c (cs ++ ['>']) (c :: (cs ++ ['>'])) (by simp [hs])
        (hU (c :: cs))

/-- The half of the improper-mention rule that the code keeps: a token that
ends with `>` and does not begin with `<@` is rejected with `ImproperMention`
carrying the token. -/
theorem UserIDArg_ParseFromMessage_no_marker (d : ArgDef) (data : Data) (part : GoString)
    (hsuf : HasSuffix part ">".toList = true) (hpre : HasPrefix part "<@".toList = false) :
    UserIDArg.ParseFromMessage d part data =
      (Value.nil, some (Error.ImproperMention part)) := by
  have hs : ∃ s, part = s ++ ['>'] := by
    have : ['>'] <:+ part := by simpa [HasSuffix] using hsuf
    obtain ⟨s, hs⟩ := this
    exact ⟨s, hs.symm⟩
  obtain ⟨s, rfl⟩ := hs
  have herr := ParseInt_closing s
  unfold UserIDArg.ParseFromMessage
  rw [hpre]
  simp [herr]

/-! ## Outcomes of the username search -/

theorem isFullMatch_none (U : UnicodeTables) (str : GoString) : isFullMatch U str none = false :=
  rfl

theorem isPartialMatch_none (U : UnicodeTables) (str : GoString) :
    isPartialMatch U str none = false := rfl

theorem membersWhere_length (p : Option MemberState → Bool) (hp : p none = false)
    (ms : List (Option MemberState)) : (membersWhere p ms).length = ms.countP p := by
  induction ms with
  | nil => rfl
  | cons o rest ih =>
    cases o with
    | none => rw [membersWhere_cons_false _ _ _ hp, ih, List.countP_cons_of_neg _ _ (by simp [hp])]
    | some v =>
      by_cases h : p (some v) = true
      · rw [membersWhere_cons_true _ _ _ h, List.length_cons, ih, List.countP_cons_of_pos _ _ h]
      · have h2 : p (some v) = false := by simpa using h
        rw [membersWhere_cons_false _ _ _ h2, ih, List.countP_cons_of_neg _ _ h]

theorem mem_membersWhere (p : Option MemberState → Bool) (ms : List (Option MemberState))
    (v : MemberState) : v ∈ membersWhere p ms ↔ some v ∈ ms ∧ p (some v) = true := by
  simp [membersWhere, List.mem_filterMap, List.mem_filter]

theorem membersWhere_eq_nil (p : Option MemberState → Bool) (hp : p none = false)
    (ms : List (Option MemberState)) : membersWhere p ms = [] ↔ ∀ o ∈ ms, p o = false := by
  rw [← List.length_eq_zero, membersWhere_length p hp, List.countP_eq_zero]
  simp

theorem uptoFull_of_no_full (U : UnicodeTables) (str : GoString) (k : Nat)
    (ms : List (Option MemberState)) (h : ∀ o ∈ ms, isFullMatch U str o = false) :
    uptoFull U str (k + 1) ms = ms := by
  induction ms with
  | nil => rfl
  | cons o rest ih =>
    rw [uptoFull_cons_false U str k o rest (h o (List.mem_cons_self _ _)),
      ih (fun x hx => h x (List.mem_cons_of_mem _ hx))]

theorem quoteName_ne_nil (v : MemberState) : quoteName v ≠ [] := by
  simp [quoteName]

theorem appendName_ne_nil (out : GoString) (v : MemberState) : appendName out v ≠ [] := by
  simp [appendName]

theorem foldl_appendName_of_ne_nil (vs : List MemberState) : ∀ (out : GoString), out ≠ [] →
    vs.foldl appendName out = out ++ (vs.map (fun v => ", ".toList ++ quoteName v)).flatten := by
  induction vs with
  | nil => intro out _; simp
  | cons v rest ih =>
    intro out hout
    rw [List.foldl_cons, ih _ (appendName_ne_nil out v)]
    simp [appendName, hout, quoteName]

theorem intercalate_cons (sep x : GoString) (xs : List GoString) :
    List.intercalate sep (x :: xs) = x ++ (xs.map (fun y => sep ++ y)).flatten := by
  induction xs generalizing x with
  | nil => simp [List.intercalate]
  | cons y rest ih =>
    have h := ih y
    simp only [List.intercalate, List.intersperse, List.flatten_cons, List.map_cons] at h ⊢
    rw [h]; simp

theorem foldl_appendName_nil (vs : List MemberState) :
    vs.foldl appendName [] = joinNames vs := by
  cases vs with
  | nil => rfl
  | cons v rest =>
    have h0 : appendName [] v = quoteName v := by simp [appendName, quoteName]
    rw [List.foldl_cons, h0, foldl_appendName_of_ne_nil rest _ (quoteName_ne_nil v), joinNames,
      List.map_cons, intercalate_cons]
    simp [List.map_map, Function.comp_def]

theorem candidateList_eq (fullMatches partialMatches : List MemberState) :
    candidateList fullMatches partialMatches = joinNames (fullMatches ++ partialMatches) := by
  rw [candidateList, ← List.foldl_append, foldl_appendName_nil]

theorem scanMembers_start (U : UnicodeTables) (str : GoString) (ms : List (Option MemberState)) :
    scanMembers U str (ToLower U str) ms [] [] =
      ((membersWhere (isFullMatch U str) ms).take 5,
       (membersWhere (isPartialMatch U str) (uptoFull U str 5 ms)).take 5) := by
  simpa using scanMembers_eq U str ms 4 [] [] rfl

/-- The four outcomes of the search in terms of the full and partial matches
of the directory. -/
theorem FindDiscordMemberByName_eq (U : UnicodeTables) (gs : GuildState) (str : GoString) :
    FindDiscordMemberByName U none gs str =
      match membersWhere (isFullMatch U str) gs.memberList with
      | [m] => (some m, none)
      | [] =>
        if membersWhere (isPartialMatch U str) gs.memberList = [] then
          (none, some (Error.UserNotFound str))
        else (none, some (NewSimpleUserError (didYouMeanMessage (joinNames
          ((membersWhere (isPartialMatch U str) gs.memberList).take 5)))))
      | a :: b :: rest =>
        (none, some (NewSimpleUserError (tooManyMessage (joinNames
          ((a :: b :: rest).take 5 ++
            (membersWhere (isPartialMatch U str) (uptoFull U str 5 gs.memberList)).take 5))))) := by
  unfold FindDiscordMemberByName
  simp only []
  rw [show gs.Members.map Prod.snd = gs.memberList from rfl, scanMembers_start]
  rcases hF : membersWhere (isFullMatch U str) gs.memberList with _ | ⟨a, _ | ⟨b, rest⟩⟩
  · have hno := (membersWhere_eq_nil _ (isFullMatch_none U str) _).mp hF
    rw [uptoFull_of_no_full U str 4 _ hno]
    by_cases hP : membersWhere (isPartialMatch U str) gs.memberList = []
    · simp [hP]
    · have : (membersWhere (isPartialMatch U str) gs.memberList).take 5 ≠ [] := by
        cases hq : membersWhere (isPartialMatch U str) gs.memberList with
        | nil => exact absurd hq hP
        | cons x xs => simp
      simp [hP, this, candidateList_eq]
  · simp [MemberState.Copy]
  · simp [candidateList_eq]

theorem mem_of_mem_uptoFull (U : UnicodeTables) (str : GoString) :
    ∀ (ms : List (Option MemberState)) (k : Nat) (o : Option MemberState),
      o ∈ uptoFull U str k ms → o ∈ ms := by
  intro ms
  induction ms with
  | nil => intro k o h; cases k <;> simp [uptoFull] at h
  | cons x rest ih =>
    intro k o h
    cases k with
    | zero => simp [uptoFull] at h
    | succ k =>
      by_cases hx : isFullMatch U str x = true
      · rw [uptoFull_cons_true U str k x rest hx] at h
        rcases List.mem_cons.mp h with h | h
        · exact h ▸ List.mem_cons_self _ _
        · exact List.mem_cons_of_mem _ (ih k o h)
      · have hx2 : isFullMatch U str x = false := by simpa using hx
        rw [uptoFull_cons_false U str k x rest hx2] at h
        rcases List.mem_cons.mp h with h | h
        · exact h ▸ List.mem_cons_self _ _
        · exact List.mem_cons_of_mem _ (ih (k + 1) o h)

theorem tooMany_ne_didYouMean (x y : GoString) : tooManyMessage x ≠ didYouMeanMessage y := by
  simp [tooManyMessage, didYouMeanMessage]

/-- C2: with no hook installed, the search returns a member with no error
exactly when one directory entry (non-nil, with a non-empty username) has a
username or nickname equal to the query ignoring case, whatever the partial
matches are; and a member is only ever returned with no error, as the one full
match of the directory. -/
theorem FindDiscordMemberByName_unique_full (U : UnicodeTables) (gs : GuildState)
    (str : GoString) :
    ((∃ m, FindDiscordMemberByName U none gs str = (some m, none)) ↔
      gs.memberList.countP (isFullMatch U str) = 1) ∧
    (∀ m, (FindDiscordMemberByName U none gs str).1 = some m →
      (FindDiscordMemberByName U none gs str).2 = none ∧
      some m ∈ gs.memberList ∧ isFullMatch U str (some m) = true ∧
      gs.memberList.countP (isFullMatch U str) = 1 ∧
      ∀ m2, some m2 ∈ gs.memberList → isFullMatch U str (some m2) = true → m2 = m) := by
  have hlen := membersWhere_length (isFullMatch U str) (isFullMatch_none U str) gs.memberList
  have hmem := mem_membersWhere (isFullMatch U str) gs.memberList
  have heq := FindDiscordMemberByName_eq U gs str
  rcases hF : membersWhere (isFullMatch U str) gs.memberList with _ | ⟨a, _ | ⟨b, rest⟩⟩
  · rw [hF] at heq hlen
    simp only [List.length_nil] at hlen
    refine ⟨⟨fun ⟨m, hm⟩ => ?_, fun h => ?_⟩, fun m hm => ?_⟩
    · rw [hm] at heq; split_ifs at heq <;> simp at heq
    · omega
    · rw [heq] at hm; split_ifs at hm
  · rw [hF] at heq hlen hmem
    simp only [List.length_singleton] at hlen
    refine ⟨⟨fun _ => hlen.symm, fun _ => ⟨a, heq⟩⟩, fun m hm => ?_⟩
    rw [heq] at hm ⊢
    simp only [Option.some.injEq] at hm
    subst hm
    have ha := (hmem a).mp (List.mem_singleton_self a)
    refine ⟨rfl, ha.1, ha.2, hlen.symm, fun m2 h1 h2 => ?_⟩
    exact List.mem_singleton.mp ((hmem m2).mpr ⟨h1, h2⟩)
  · rw [hF] at heq hlen
    simp only [List.length_cons] at hlen
    refine ⟨⟨fun ⟨m, hm⟩ => ?_, fun h => ?_⟩, fun m hm => ?_⟩
    · rw [hm] at heq; simp at heq
    · omega
    · rw [heq] at hm; simp at hm

/-- C3 as stated fails: in a directory holding `Bob`, `bob` and `bobby` the
query `bob` has the two full matches `Bob` and `bob`, and the candidate list of
the error also names the partial match `bobby`. -/
theorem FindDiscordMemberByName_too_many_names_partial :
    guildBobBobBobby.memberList.countP (isFullMatch asciiTables "bob".toList) = 2 ∧
    joinNames (membersWhere (isFullMatch asciiTables "bob".toList) guildBobBobBobby.memberList) =
      "`Bob`, `bob`".toList ∧
    FindDiscordMemberByName asciiTables none guildBobBobBobby "bob".toList =
      (none, some (NewSimpleUserError (tooManyMessage "`Bob`, `bob`, `bobby`".toList))) ∧
    FindDiscordMemberByName asciiTables none guildBobBobBobby "bob".toList ≠
      (none, some (NewSimpleUserError (tooManyMessage (joinNames
        (membersWhere (isFullMatch asciiTables "bob".toList)
          guildBobBobBobby.memberList))))) := by
  refine ⟨by decide, by decide, by decide, by decide⟩

/-- C3, amended: with no hook installed, when more than one directory entry is
a full match the search returns no member and the "Too many users with that
name" error whose candidate list is the first five full matches followed by
the first five partial matches met before the scan stopped at the fifth full
match, back-quoted and joined by a comma and a space; when the directory has
at most five full matches and no partial match, the list is exactly all the
full matches. -/
theorem FindDiscordMemberByName_too_many (U : UnicodeTables) (gs : GuildState) (str : GoString)
    (h : 1 < gs.memberList.countP (isFullMatch U str)) :
    FindDiscordMemberByName U none gs str =
      (none, some (NewSimpleUserError (tooManyMessage (joinNames
        ((membersWhere (isFullMatch U str) gs.memberList).take 5 ++
          (membersWhere (isPartialMatch U str) (uptoFull U str 5 gs.memberList)).take 5))))) ∧
    (gs.memberList.countP (isFullMatch U str) ≤ 5 →
      (∀ o ∈ gs.memberList, isPartialMatch U str o = false) →
      FindDiscordMemberByName U none gs str =
        (none, some (NewSimpleUserError (tooManyMessage (joinNames
          (membersWhere (isFullMatch U str) gs.memberList)))))) := by
  have hlen := membersWhere_length (isFullMatch U str) (isFullMatch_none U str) gs.memberList
  have heq := FindDiscordMemberByName_eq U gs str
  have main : FindDiscordMemberByName U none gs str =
      (none, some (NewSimpleUserError (tooManyMessage (joinNames
        ((membersWhere (isFullMatch U str) gs.memberList).take 5 ++
          (membersWhere (isPartialMatch U str) (uptoFull U str 5 gs.memberList)).take 5))))) := by
    rcases hF : membersWhere (isFullMatch U str) gs.memberList with _ | ⟨a, _ | ⟨b, rest⟩⟩
    · rw [hF] at hlen; simp only [List.length_nil] at hlen; omega
    · rw [hF] at hlen; simp only [List.length_singleton] at hlen; omega
    · rw [hF] at heq; exact heq
  refine ⟨main, fun h5 hnp => ?_⟩
  have hP : membersWhere (isPartialMatch U str) (uptoFull U str 5 gs.memberList) = [] :=
    (membersWhere_eq_nil _ (isPartialMatch_none U str) _).mpr
      (fun o ho => hnp o (mem_of_mem_uptoFull U str _ _ o ho))
  rw [main, hP, List.take_nil, List.append_nil, List.take_of_length_le (by omega)]

/-- A use of `FindDiscordMemberByName_too_many` on the directory holding
`Bob`, `bob` and `bobby` with the query `bob`. -/
theorem FindDiscordMemberByName_too_many_witness :
    1 < guildBobBobBobby.memberList.countP (isFullMatch asciiTables "bob".toList) ∧
    FindDiscordMemberByName asciiTables none guildBobBobBobby "bob".toList =
      (none, some (NewSimpleUserError (tooManyMessage (joinNames
        ((membersWhere (isFullMatch asciiTables "bob".toList)
            guildBobBobBobby.memberList).take 5 ++
          (membersWhere (isPartialMatch asciiTables "bob".toList)
            (uptoFull asciiTables "bob".toList 5 guildBobBobBobby.memberList)).take 5))))) :=
  ⟨by decide,
   (FindDiscordMemberByName_too_many asciiTables guildBobBobBobby "bob".toList (by decide)).1⟩

/-- C4: with no hook installed, the search fails with `UserNotFound` carrying
the query exactly when no directory entry (non-nil, with a non-empty username)
has a username or nickname equal to the query ignoring case and none has a
username containing the query ignoring case. -/
theorem FindDiscordMemberByName_not_found_iff (U : UnicodeTables) (gs : GuildState)
    (str : GoString) :
    (FindDiscordMemberByName U none gs str = (none, some (Error.UserNotFound str)) ↔
      (∀ o ∈ gs.memberList, isFullMatch U str o = false) ∧
      (∀ o ∈ gs.memberList, containsQuery U str o = false)) ∧
    (∀ q, (FindDiscordMemberByName U none gs str).2 = some (Error.UserNotFound q) →
      FindDiscordMemberByName U none gs str = (none, some (Error.UserNotFound str))) := by
  have hnil := membersWhere_eq_nil (isFullMatch U str) (isFullMatch_none U str) gs.memberList
  have hpnil :=
    membersWhere_eq_nil (isPartialMatch U str) (isPartialMatch_none U str) gs.memberList
  have heq := FindDiscordMemberByName_eq U gs str
  rcases hF : membersWhere (isFullMatch U str) gs.memberList with _ | ⟨a, _ | ⟨b, rest⟩⟩
  · rw [hF] at heq
    have hno := hnil.mp hF
    by_cases hP : membersWhere (isPartialMatch U str) gs.memberList = []
    · simp only [hP, if_true] at heq
      refine ⟨⟨fun _ => ⟨hno, fun o ho => ?_⟩, fun _ => heq⟩, fun _ _ => heq⟩
      have := hpnil.mp hP o ho
      simpa [isPartialMatch, hno o ho] using this
    · simp only [hP, if_false] at heq
      refine ⟨⟨fun hr => ?_, fun ⟨_, hc⟩ => ?_⟩, fun q hq => ?_⟩
      · rw [heq] at hr; simp [NewSimpleUserError] at hr
      · exact absurd (hpnil.mpr (fun o ho => by simp [isPartialMatch, hc o ho])) hP
      · rw [heq] at hq; simp [NewSimpleUserError] at hq
  · rw [hF] at heq hnil
    refine ⟨⟨fun hr => ?_, fun ⟨hf, _⟩ => ?_⟩, fun q hq => ?_⟩
    · rw [heq] at hr; simp at hr
    · exact absurd (hnil.mpr hf) (by simp)
    · rw [heq] at hq; simp at hq
  · rw [hF] at heq hnil
    refine ⟨⟨fun hr => ?_, fun ⟨hf, _⟩ => ?_⟩, fun q hq => ?_⟩
    · rw [heq] at hr; simp [NewSimpleUserError] at hr
    · exact absurd (hnil.mpr hf) (by simp)
    · rw [heq] at hq; simp [NewSimpleUserError] at hq

/-- C5 as stated fails: in a directory holding `Bob` and `bobby` the query
`bob` has the one full match `Bob` and the partial match `bobby`, and the
search returns `Bob` with no error. -/
theorem FindDiscordMemberByName_full_beside_partial :
    guildBobBobby.memberList.countP (isFullMatch asciiTables "bob".toList) = 1 ∧
    isPartialMatch asciiTables "bob".toList (some (memberNamed 3 "bobby")) = true ∧
    FindDiscordMemberByName asciiTables none guildBobBobby "bob".toList =
      (some (memberNamed 1 "Bob"), none) := by
  refine ⟨by decide, by decide, by decide⟩

/-- C5, amended: with no hook installed, when exactly one directory entry is a
full match and another is a partial match, the search returns the full match
with no error; the "Did you mean one of these?" error is returned exactly when
no entry is a full match and some entry is a partial match, and it then lists
the first five partial matches. -/
theorem FindDiscordMemberByName_did_you_mean (U : UnicodeTables) (gs : GuildState)
    (str : GoString) :
    (gs.memberList.countP (isFullMatch U str) = 1 →
      (∃ o ∈ gs.memberList, isPartialMatch U str o = true) →
      ∃ m, some m ∈ gs.memberList ∧ isFullMatch U str (some m) = true ∧
        FindDiscordMemberByName U none gs str = (some m, none)) ∧
    ((∃ out, FindDiscordMemberByName U none gs str =
        (none, some (NewSimpleUserError (didYouMeanMessage out)))) ↔
      gs.memberList.countP (isFullMatch U str) = 0 ∧
        ∃ o ∈ gs.memberList, isPartialMatch U str o = true) ∧
    (gs.memberList.countP (isFullMatch U str) = 0 →
      (∃ o ∈ gs.memberList, isPartialMatch U str o = true) →
      FindDiscordMemberByName U none gs str =
        (none, some (NewSimpleUserError (didYouMeanMessage (joinNames
          ((membersWhere (isPartialMatch U str) gs.memberList).take 5)))))) := by
  have hlen := membersWhere_length (isFullMatch U str) (isFullMatch_none U str) gs.memberList
  have hmem := mem_membersWhere (isFullMatch U str) gs.memberList
  have hpnil :=
    membersWhere_eq_nil (isPartialMatch U str) (isPartialMatch_none U str) gs.memberList
  have heq := FindDiscordMemberByName_eq U gs str
  have hex : (∃ o ∈ gs.memberList, isPartialMatch U str o = true) ↔
      membersWhere (isPartialMatch U str) gs.memberList ≠ [] := by
    rw [Ne, hpnil]; simp
  rcases hF : membersWhere (isFullMatch U str) gs.memberList with _ | ⟨a, _ | ⟨b, rest⟩⟩
  · rw [hF] at heq hlen
    simp only [List.length_nil] at hlen
    refine ⟨fun h => by omega, ⟨fun ⟨out, ho⟩ => ⟨hlen.symm, ?_⟩, fun ⟨_, hp⟩ => ?_⟩,
      fun _ hp => ?_⟩
    · rw [hex]; intro hP
      rw [heq, if_pos hP] at ho; simp [NewSimpleUserError] at ho
    · rw [heq, if_neg (hex.mp hp)]; exact ⟨_, rfl⟩
    · rw [heq, if_neg (hex.mp hp)]
  · rw [hF] at heq hlen hmem
    simp only [List.length_singleton] at hlen
    have ha := (hmem a).mp (List.mem_singleton_self a)
    refine ⟨fun _ _ => ⟨a, ha.1, ha.2, heq⟩, ⟨fun ⟨out, ho⟩ => ?_, fun ⟨h0, _⟩ => by omega⟩,
      fun h0 _ => by omega⟩
    rw [heq] at ho; simp at ho
  · rw [hF] at heq hlen
    simp only [List.length_cons] at hlen
    refine ⟨fun h => by omega, ⟨fun ⟨out, ho⟩ => ?_, fun ⟨h0, _⟩ => by omega⟩,
      fun h0 _ => by omega⟩
    rw [heq] at ho
    simp only [NewSimpleUserError, Prod.mk.injEq, Option.some.injEq, Error.SimpleUserError.injEq,
      true_and] at ho
    exact absurd ho (tooMany_ne_didYouMean _ _)

/-! ## The structured option lookups -/

open SlashCommandsParseOptions

theorem ToLower_of_ascii (U : UnicodeTables) (n : GoString) (h : n.all isASCIIByte = true) :
    ToLower U n = n.map lowerByte := by
  simp [ToLower, h]

theorem map_lowerByte_of_EqualFold (U : UnicodeTables) : ∀ (n k : GoString),
    n.all isASCIIByte = true → k.all isASCIIByte = true →
    k.all (fun c => !isUpperByte c) = true → EqualFold U n k = true →
    n.map lowerByte = k := by
  intro n
  induction n with
  | nil =>
    intro k _ _ _ h
    cases k with
    | nil => rfl
    | cons b t => simp [EqualFold] at h
  | cons a s ih =>
    intro k hn hk hl h
    cases k with
    | nil => simp [EqualFold] at h
    | cons b t =>
      simp only [List.all_cons, Bool.and_eq_true] at hn hk hl
      have hrest : EqualFold U s t = true → s.map lowerByte = t :=
        ih t hn.2 hk.2 hl.2
      have hb : isUpperByte b = false := by simpa using hl.1
      rw [EqualFold] at h
      simp only [hn.1, hk.1, Bool.not_true, Bool.or_self, Bool.false_eq_true, if_false] at h
      by_cases hab : a = b
      · subst hab
        simp only [if_true] at h
        simp [lowerByte, hb, hrest h]
      · simp only [hab, if_false] at h
        split_ifs at h with hc
        simp only [Bool.and_eq_true, decide_eq_true_eq] at hc
        rcases le_total a b with hle | hle
        · rw [min_eq_left hle, max_eq_right hle] at hc
          have : lowerByte a = b := by
            simp only [lowerByte, hc.1, if_true]
            rw [← hc.2, Char.ofNat_toNat]
          simp [this, hrest h]
        · rw [min_eq_right hle] at hc
          rw [hb] at hc
          exact absurd hc.1 (by simp)

/-- C8: for the scalar kinds `Int64`, `String` and `Bool`, with the option
looked up under the key the accessors use for the name: when no option is
stored, `ExpectKOpt` returns `found = false` with no error and `ExpectK` fails
with the missing-argument error built with a nil actual value; when the stored
value has kind `K`, both return it with no error; when it has another kind,
both fail with the mismatch error carrying the name and the stored value. -/
theorem Expect_scalar_cases (U : UnicodeTables) (sopts : SlashCommandsParseOptions)
    (name : GoString) :
    (sopts.Options (ToLower U name) = none →
      ExpectInt64Opt U sopts name = (0, false, none) ∧
      ExpectInt64 U sopts name = (0, some (NewErrArgExpected name "int64".toList Value.nil)) ∧
      ExpectStringOpt U sopts name = ([], false, none) ∧
      ExpectString U sopts name = ([], some (NewErrArgExpected name "string".toList Value.nil)) ∧
      ExpectBoolOpt U sopts name = (false, false, none) ∧
      ExpectBool U sopts name = (false, some (NewErrArgExpected name "bool".toList Value.nil))) ∧
    (∀ o, sopts.Options (ToLower U name) = some o →
      (∀ v, o.Value = Value.int64 v →
        ExpectInt64Opt U sopts name = (v, true, none) ∧ ExpectInt64 U sopts name = (v, none)) ∧
      (∀ v, o.Value = Value.string v →
        ExpectStringOpt U sopts name = (v, true, none) ∧ ExpectString U sopts name = (v, none)) ∧
      (∀ v, o.Value = Value.bool v →
        ExpectBoolOpt U sopts name = (v, true, none) ∧ ExpectBool U sopts name = (v, none)) ∧
      ((∀ v, o.Value ≠ Value.int64 v) →
        ExpectInt64Opt U sopts name =
          (0, true, some (NewErrArgExpected name "int64".toList o.Value)) ∧
        ExpectInt64 U sopts name = (0, some (NewErrArgExpected name "int64".toList o.Value))) ∧
      ((∀ v, o.Value ≠ Value.string v) →
        ExpectStringOpt U sopts name =
          ([], true, some (NewErrArgExpected name "string".toList o.Value)) ∧
        ExpectString U sopts name =
          ([], some (NewErrArgExpected name "string".toList o.Value))) ∧
      ((∀ v, o.Value ≠ Value.bool v) →
        ExpectBoolOpt U sopts name =
          (false, true, some (NewErrArgExpected name "string".toList o.Value)) ∧
        ExpectBool U sopts name =
          (false, some (NewErrArgExpected name "string".toList o.Value)))) := by
  refine ⟨fun h => ?_, fun o h => ⟨fun v hv => ?_, fun v hv => ?_, fun v hv => ?_,
    fun hv => ?_, fun hv => ?_, fun hv => ?_⟩⟩
  · simp [ExpectInt64Opt, ExpectInt64, ExpectStringOpt, ExpectString, ExpectBoolOpt, ExpectBool, h]
  · simp [ExpectInt64Opt, ExpectInt64, h, hv]
  · simp [ExpectStringOpt, ExpectString, h, hv]
  · simp [ExpectBoolOpt, ExpectBool, h, hv]
  · cases hval : o.Value <;> simp_all [ExpectInt64Opt, ExpectInt64]
  · cases hval : o.Value <;> simp_all [ExpectStringOpt, ExpectString]
  · cases hval : o.Value <;> simp_all [ExpectBoolOpt, ExpectBool]

/-- C9 as stated fails: the option map holds the key `Foo`, the name `Foo`
equals that key, and no lookup finds the option, because the name is
lower-cased to `foo` before the map is read. -/
theorem ExpectAnyOpt_upper_case_key :
    optionsFoo.Options "Foo".toList = some ⟨"Foo".toList, Value.int64 1⟩ ∧
    EqualFold asciiTables "Foo".toList "Foo".toList = true ∧
    ExpectAnyOpt asciiTables optionsFoo "Foo".toList = (Value.nil, false) ∧
    ExpectInt64Opt asciiTables optionsFoo "Foo".toList = (0, false, none) ∧
    ExpectStringOpt asciiTables optionsFoo "Foo".toList = ([], false, none) ∧
    ExpectBoolOpt asciiTables optionsFoo "Foo".toList = (false, false, none) := by
  refine ⟨by decide, by decide, by decide, by decide, by decide, by decide⟩

/-- C9, amended: the name is lower-cased with `strings.ToLower` and the map is
read at that key. For every option map, every key `k` holding an option and
every name `n` whose lower-cased form is `k`, which includes every ASCII name
equal ignoring case to an ASCII key `k` without upper-case letters, the four
lookups find the option stored under `k`. -/
theorem Expect_lookup_lower_cased (U : UnicodeTables) (sopts : SlashCommandsParseOptions)
    (k n : GoString) (o : DataOption) (hk : sopts.Options k = some o)
    (hn : ToLower U n = k ∨
      (n.all isASCIIByte = true ∧ k.all isASCIIByte = true ∧
        k.all (fun c => !isUpperByte c) = true ∧ EqualFold U n k = true)) :
    ExpectAnyOpt U sopts n = (o.Value, true) ∧
    ((ExpectInt64Opt U sopts n).2.1 = true ∧
      ∀ v, o.Value = Value.int64 v → ExpectInt64Opt U sopts n = (v, true, none)) ∧
    ((ExpectStringOpt U sopts n).2.1 = true ∧
      ∀ v, o.Value = Value.string v → ExpectStringOpt U sopts n = (v, true, none)) ∧
    ((ExpectBoolOpt U sopts n).2.1 = true ∧
      ∀ v, o.Value = Value.bool v → ExpectBoolOpt U sopts n = (v, true, none)) := by
  have hl : ToLower U n = k := by
    rcases hn with h | ⟨h1, h2, h3, h4⟩
    · exact h
    · rw [ToLower_of_ascii U n h1]; exact map_lowerByte_of_EqualFold U n k h1 h2 h3 h4
  have hopt : sopts.Options (ToLower U n) = some o := by rw [hl]; exact hk
  refine ⟨by simp [ExpectAnyOpt, hopt], ⟨?_, fun v hv => ?_⟩, ⟨?_, fun v hv => ?_⟩,
    ⟨?_, fun v hv => ?_⟩⟩
  · cases hval : o.Value <;> simp [ExpectInt64Opt, hopt, hval]
  · simp [ExpectInt64Opt, hopt, hv]
  · cases hval : o.Value <;> simp [ExpectStringOpt, hopt, hval]
  · simp [ExpectStringOpt, hopt, hv]
  · cases hval : o.Value <;> simp [ExpectBoolOpt, hopt, hval]
  · simp [ExpectBoolOpt, hopt, hv]

/-- A use of `Expect_lookup_lower_cased`: the name `FOO` finds the option
stored under the key `foo`. -/
theorem Expect_lookup_lower_cased_witness :
    optionsLowerFoo.Options "foo".toList = some ⟨"foo".toList, Value.int64 1⟩ ∧
    EqualFold asciiTables "FOO".toList "foo".toList = true ∧
    ExpectAnyOpt asciiTables optionsLowerFoo "FOO".toList = (Value.int64 1, true) :=
  ⟨by decide, by decide,
   (Expect_lookup_lower_cased asciiTables optionsLowerFoo "foo".toList "FOO".toList
      ⟨"foo".toList, Value.int64 1⟩ (by decide)
      (Or.inr ⟨by decide, by decide, by decide, by decide⟩)).1⟩

/-- C10: for `ExpectUserOpt`, `ExpectRoleOpt` and `ExpectChannelOpt`: when the
option is absent the result is `(nil, false, nil)`; when it holds an integer id
that is a key of the matching resolved table the result is the table's entry
with `found = true` and no error; when the id is not a key of the table the
result is `found = true` with `ErrResolvedNotFound` carrying the name, the id
and the entity type, which is not a missing-argument error. -/
theorem Expect_resolved_cases (U : UnicodeTables) (sopts : SlashCommandsParseOptions)
    (name : GoString) :
    (sopts.Options (ToLower U name) = none →
      ExpectUserOpt U sopts name = (none, false, none) ∧
      ExpectRoleOpt U sopts name = (none, false, none) ∧
      ExpectChannelOpt U sopts name = (none, false, none)) ∧
    (∀ o id, sopts.Options (ToLower U name) = some o → o.Value = Value.int64 id →
      (∀ e, sopts.Interaction.Users id = some e → ExpectUserOpt U sopts name = (e, true, none)) ∧
      (∀ e, sopts.Interaction.Roles id = some e → ExpectRoleOpt U sopts name = (e, true, none)) ∧
      (∀ e, sopts.Interaction.Channels id = some e →
        ExpectChannelOpt U sopts name = (e, true, none)) ∧
      (sopts.Interaction.Users id = none →
        ExpectUserOpt U sopts name =
          (none, true, some (Error.ErrResolvedNotFound name id "user".toList)) ∧
        ∀ expected got, (ExpectUserOpt U sopts name).2.2 ≠
          some (NewErrArgExpected name expected got)) ∧
      (sopts.Interaction.Roles id = none →
        ExpectRoleOpt U sopts name =
          (none, true, some (Error.ErrResolvedNotFound name id "role".toList)) ∧
        ∀ expected got, (ExpectRoleOpt U sopts name).2.2 ≠
          some (NewErrArgExpected name expected got)) ∧
      (sopts.Interaction.Channels id = none →
        ExpectChannelOpt U sopts name =
          (none, true, some (Error.ErrResolvedNotFound name id "channel".toList)) ∧
        ∀ expected got, (ExpectChannelOpt U sopts name).2.2 ≠
          some (NewErrArgExpected name expected got))) := by
  refine ⟨fun h => ?_, fun o id h hv => ⟨fun e he => ?_, fun e he => ?_, fun e he => ?_,
    fun he => ?_, fun he => ?_, fun he => ?_⟩⟩
  · simp [ExpectUserOpt, ExpectRoleOpt, ExpectChannelOpt, ExpectInt64Opt, h]
  · simp [ExpectUserOpt, ExpectInt64Opt, h, hv, he]
  · simp [ExpectRoleOpt, ExpectInt64Opt, h, hv, he]
  · simp [ExpectChannelOpt, ExpectInt64Opt, h, hv, he]
  · simp [ExpectUserOpt, ExpectInt64Opt, h, hv, he, NewErrArgExpected]
  · simp [ExpectRoleOpt, ExpectInt64Opt, h, hv, he, NewErrArgExpected]
  · simp [ExpectChannelOpt, ExpectInt64Opt, h, hv, he, NewErrArgExpected]

/-! ## Parsing from an interaction -/

/-- C11: for every `int64` value `v` and every `IntArg`, parsing from an
interaction gives the same outcome whether the argument's option holds the
structured integer `v` or the base-10 string of `v`, and that outcome is the
one of parsing the base-10 text of `v` from a message: the value `v`, or the
`OutOfRangeError` carrying `v`, `Min` and `Max`. -/
theorem IntArg_ParseFromInteraction_agrees (U : UnicodeTables) (i : IntArg) (d : ArgDef)
    (data : Data) (v : Int) (hv : isInt64 v) (sInt sStr : SlashCommandsParseOptions)
    (oInt oStr : DataOption)
    (hInt : sInt.Options (ToLower U d.Name) = some oInt) (hIntV : oInt.Value = Value.int64 v)
    (hStr : sStr.Options (ToLower U d.Name) = some oStr)
    (hStrV : oStr.Value = Value.string (FormatInt v)) :
    i.ParseFromInteraction U d data sInt = i.ParseFromMessage d (FormatInt v) data ∧
    i.ParseFromInteraction U d data sStr = i.ParseFromMessage d (FormatInt v) data ∧
    (i.ParseFromMessage d (FormatInt v) data = (Value.int64 v, none) ∨
      i.ParseFromMessage d (FormatInt v) data =
        (Value.nil, some (Error.OutOfRangeError d.Name (Value.int64 v) (Value.int64 i.Min)
          (Value.int64 i.Max) false))) := by
  have hp := ParseInt_FormatInt v hv
  refine ⟨?_, ?_, ?_⟩
  · simp [IntArg.ParseFromInteraction, IntArg.ParseFromMessage, ExpectAny, ExpectAnyOpt, hInt,
      hIntV, hp]
  · simp [IntArg.ParseFromInteraction, IntArg.ParseFromMessage, ExpectAny, ExpectAnyOpt, hStr,
      hStrV, hp]
  · by_cases hr : i.Max ≠ i.Min ∧ (i.Max < v ∨ i.Min > v)
    · right; simp [IntArg.ParseFromMessage, hp, hr]
    · left; simp [IntArg.ParseFromMessage, hp, hr]

/-- A use of `IntArg_ParseFromInteraction_agrees` with the bounds `[1, 10]` and
the value `42`, stored under the key `n` as an integer and as a string. -/
theorem IntArg_ParseFromInteraction_agrees_witness :
    isInt64 42 ∧
    IntArg.ParseFromInteraction asciiTables ⟨1, 10, false⟩ ⟨"n".toList, [], Value.nil⟩
        ⟨none, none, none⟩ (optionsSingle "n" (Value.int64 42)) =
      IntArg.ParseFromInteraction asciiTables ⟨1, 10, false⟩ ⟨"n".toList, [], Value.nil⟩
        ⟨none, none, none⟩ (optionsSingle "n" (Value.string (FormatInt 42))) :=
  ⟨by decide,
   (IntArg_ParseFromInteraction_agrees asciiTables ⟨1, 10, false⟩ ⟨"n".toList, [], Value.nil⟩
      ⟨none, none, none⟩ 42 (by decide) (optionsSingle "n" (Value.int64 42))
      (optionsSingle "n" (Value.string (FormatInt 42))) ⟨"n".toList, Value.int64 42⟩
      ⟨"n".toList, Value.string (FormatInt 42)⟩ (by decide) rfl (by decide) rfl).1.trans
    (IntArg_ParseFromInteraction_agrees asciiTables ⟨1, 10, false⟩ ⟨"n".toList, [], Value.nil⟩
      ⟨none, none, none⟩ 42 (by decide) (optionsSingle "n" (Value.int64 42))
      (optionsSingle "n" (Value.string (FormatInt 42))) ⟨"n".toList, Value.int64 42⟩
      ⟨"n".toList, Value.string (FormatInt 42)⟩ (by decide) rfl (by decide) rfl).2.1.symm⟩

/-- C12 as stated fails: with `def.Name` equal to `user`, a payload with no
native option whose companion option, named `user-ID` as `def.Name + "-ID"`
spells it, holds the base-10 string of 42 is not parsed to 42; the companion is
looked up under `user-id` and the result is the missing-argument error. -/
theorem UserIDArg_ParseFromInteraction_declared_companion :
    defUser.Name ++ "-ID".toList = "user-ID".toList ∧
    (optionsSingle "user-ID" (Value.string (FormatInt 42))).Options "user".toList = none ∧
    (optionsSingle "user-ID" (Value.string (FormatInt 42))).Options "user-ID".toList =
      some ⟨"user-ID".toList, Value.string (FormatInt 42)⟩ ∧
    UserIDArg.ParseFromInteraction asciiTables defUser ⟨none, none, none⟩
        (optionsSingle "user-ID" (Value.string (FormatInt 42))) ≠
      Run.ret (Value.int64 42, none) ∧
    UserIDArg.ParseFromInteraction asciiTables defUser ⟨none, none, none⟩
        (optionsSingle "user-ID" (Value.string (FormatInt 42))) =
      Run.ret (Value.nil,
        some (NewErrArgExpected "user-ID".toList "string".toList Value.nil)) := by
  refine ⟨by decide, by decide, by decide, by decide, by decide⟩

/-- C12, amended: `UserIDArg.ParseFromInteraction` prefers the native option,
and reads both options under lower-cased names: when the option stored under
the lower-cased `def.Name` resolves to a user `u` it returns `u.ID` with no
error, whatever else the payload holds; when no option is stored under the
lower-cased `def.Name` and the option stored under the lower-cased
`def.Name + "-ID"` holds the base-10 string of `n` it returns `n`; when
nothing is stored under either lower-cased name it fails with the
missing-argument error, which names `def.Name + "-ID"`. -/
theorem UserIDArg_ParseFromInteraction_prefers_native (U : UnicodeTables) (d : ArgDef)
    (data : Data) (sopts : SlashCommandsParseOptions) :
    (∀ o id u, sopts.Options (ToLower U d.Name) = some o → o.Value = Value.int64 id →
      sopts.Interaction.Users id = some (some u) →
      UserIDArg.ParseFromInteraction U d data sopts = Run.ret (Value.int64 u.ID, none)) ∧
    (∀ o n, sopts.Options (ToLower U d.Name) = none →
      sopts.Options (ToLower U (d.Name ++ "-ID".toList)) = some o →
      o.Value = Value.string (FormatInt n) → isInt64 n →
      UserIDArg.ParseFromInteraction U d data sopts = Run.ret (Value.int64 n, none)) ∧
    (sopts.Options (ToLower U d.Name) = none →
      sopts.Options (ToLower U (d.Name ++ "-ID".toList)) = none →
      UserIDArg.ParseFromInteraction U d data sopts =
        Run.ret (Value.nil,
          some (NewErrArgExpected (d.Name ++ "-ID".toList) "string".toList Value.nil))) := by
  refine ⟨fun o id u h hv hu => ?_, fun o n h h2 hv hn => ?_, fun h h2 => ?_⟩
  · simp [UserIDArg.ParseFromInteraction, ExpectUserOpt, ExpectInt64Opt, h, hv, hu]
  · have hp := ParseInt_FormatInt n hn
    have hU : ExpectUserOpt U sopts d.Name = (none, false, none) := by
      simp [ExpectUserOpt, ExpectInt64Opt, h]
    have hS : ExpectString U sopts (d.Name ++ "-ID".toList) = (FormatInt n, none) := by
      unfold ExpectString ExpectStringOpt; rw [h2]; simp [hv]
    unfold UserIDArg.ParseFromInteraction
    rw [hU]
    simp only [hS, hp]
    simp
  · have hU : ExpectUserOpt U sopts d.Name = (none, false, none) := by
      simp [ExpectUserOpt, ExpectInt64Opt, h]
    have hS : ExpectString U sopts (d.Name ++ "-ID".toList) =
        ([], some (NewErrArgExpected (d.Name ++ "-ID".toList) "string".toList Value.nil)) := by
      unfold ExpectString ExpectStringOpt; rw [h2]
    unfold UserIDArg.ParseFromInteraction
    rw [hU]
    simp only [hS]
    simp

/-- C16: with no guild context, `ChannelArg.ParseFromMessage` returns no value
and no error for every token, and `ChannelArg.ParseFromInteraction` returns no
value and no error for every payload. -/
theorem ChannelArg_no_guild (U : UnicodeTables) (d : ArgDef) (data : Data)
    (hg : data.GuildData = none) (part : GoString) (sopts : SlashCommandsParseOptions) :
    ChannelArg.ParseFromMessage d part data = (Value.nil, none) ∧
    ChannelArg.ParseFromInteraction U d data sopts = Run.ret (Value.nil, none) := by
  simp [ChannelArg.ParseFromMessage, ChannelArg.ParseFromInteraction, hg]

/-- A use of `ChannelArg_no_guild` on a token that is neither a channel
mention nor a number. -/
theorem ChannelArg_no_guild_witness :
    ChannelArg.ParseFromMessage defChannel "general".toList ⟨none, none, none⟩ =
      (Value.nil, none) :=
  (ChannelArg_no_guild asciiTables defChannel ⟨none, none, none⟩ rfl "general".toList
    optionsEmpty).1

/-- C17: with a guild context present, `ChannelArg.ParseFromInteraction` stops
in a nil-pointer panic instead of returning the `ExpectChannel` error, when
the channel option is missing, when it holds a string, and when it holds an id
absent from the resolved channel table. -/
theorem ChannelArg_ParseFromInteraction_faults :
    (ExpectChannel asciiTables optionsEmpty defChannel.Name =
        (none, some (NewErrArgExpected "channel".toList "*discordgo.Channel".toList Value.nil)) ∧
      ChannelArg.ParseFromInteraction asciiTables defChannel
        (dataInGuild none sessionNothing) optionsEmpty = Run.fault) ∧
    (ExpectChannel asciiTables (optionsSingle "channel" (Value.string "7".toList))
        defChannel.Name =
        (none, some (NewErrArgExpected "channel".toList "int64".toList
          (Value.string "7".toList))) ∧
      ChannelArg.ParseFromInteraction asciiTables defChannel
        (dataInGuild none sessionNothing)
        (optionsSingle "channel" (Value.string "7".toList)) = Run.fault) ∧
    (ExpectChannel asciiTables (optionsSingle "channel" (Value.int64 7)) defChannel.Name =
        (none, some (Error.ErrResolvedNotFound "channel".toList 7 "channel".toList)) ∧
      ChannelArg.ParseFromInteraction asciiTables defChannel
        (dataInGuild none sessionNothing) (optionsSingle "channel" (Value.int64 7)) =
        Run.fault) := by
  refine ⟨⟨by decide, by decide⟩, ⟨by decide, by decide⟩, ⟨by decide, by decide⟩⟩

/-- C13: an `AdvUserArg` with `RequireMembership` set, the id `5` that is in
no directory and whose guild-member fetch fails. Parsing the token `5` from a
message fails with "User/Member not found"; parsing the companion option
`user-id` holding `5` from an interaction returns a match with no error and
with `Member` (and `User`) absent. -/
theorem AdvUserArg_ParseFromInteraction_no_member :
    guildEmpty.MemberCopy 5 = none ∧
    (sessionNoMember.GuildMember guildEmpty.ID 5).2 ≠ none ∧
    AdvUserArg.ParseFromMessage asciiTables none ⟨true, false, true⟩ defUser (FormatInt 5)
        (dataInGuild none sessionNoMember) =
      Run.ret (Value.nil, some (NewSimpleUserError "User/Member not found".toList)) ∧
    AdvUserArg.ParseFromInteraction asciiTables ⟨true, false, true⟩ defUser
        (dataInGuild none sessionNoMember) (optionsSingle "user-id" (Value.int64 5)) =
      Run.ret (Value.advUserMatch { Member := none, User := none }, none) := by
  refine ⟨by decide, by decide, by decide, by decide⟩

/-- C14: two successful results whose `User` is absent. With the settings of
the package's `AdvUser`, the token `<@5>` and the user `5` in the mention
list, in a guild where `5` is no member, `ParseFromMessage` returns a match
with no error, no `Member` and no `User`. With the settings of
`AdvUserNoMember`, no guild and a failing user fetch, `ParseFromInteraction` on
the companion option returns such a match as well. -/
theorem AdvUserArg_match_without_user :
    AdvUserArg.ParseFromMessage asciiTables none ⟨true, true, true⟩ defUser "<@5>".toList
        (dataInGuild (some [{ ID := 5, Username := "visitor".toList }]) sessionNoMember) =
      Run.ret (Value.advUserMatch { Member := none, User := none }, none) ∧
    AdvUserArg.ParseFromInteraction asciiTables ⟨true, true, false⟩ defUser
        { GuildData := none, TraditionalTriggerData := none, Session := some sessionNothing }
        (optionsSingle "user-id" (Value.int64 5)) =
      Run.ret (Value.advUserMatch { Member := none, User := none }, none) := by
  refine ⟨by decide, by decide⟩

/-- C15: for a `UserArg` with `RequireMention` set, the token `<@123`, which
lacks the closing `>` and which `Matches` rejects, is parsed with no error to
the user with id `12` of the mention list: the last byte is cut off without
being checked. -/
theorem UserArg_ParseFromMessage_unclosed :
    UserArg.Matches ⟨true⟩ defUser "<@123".toList = false ∧
    UserArg.ParseFromMessage asciiTables none ⟨true⟩ defUser "<@123".toList
        { GuildData := none, TraditionalTriggerData := some [{ ID := 12, Username := "a".toList }],
          Session := none } =
      Run.ret (Value.user { ID := 12, Username := "a".toList }, none) := by
  refine ⟨by decide, by decide⟩

/-! ## Round trip through the declared options -/

theorem ParseInt_isInt64 (s : GoString) (v : Int) (h : ParseInt s = (v, none)) : isInt64 v := by
  cases s with
  | nil => simp [ParseInt] at h
  | cons c rest =>
    rw [ParseInt] at h
    generalize ParseUint (if c = '+' ∨ c = '-' then rest else c :: rest) = r at h
    by_cases h1 : r.2 = some NumErr.ErrSyntax
    · rw [if_pos h1] at h; exact absurd (Prod.mk.inj h).2 (by simp)
    · rw [if_neg h1] at h
      by_cases hneg : c = '-'
      · simp only [hneg, decide_True, Bool.not_true, Bool.false_and, Bool.false_eq_true,
          if_false, Bool.true_and, decide_eq_true_eq, if_true] at h
        split_ifs at h with h3
        · exact absurd (Prod.mk.inj h).2 (by simp)
        · have := (Prod.mk.inj h).1
          unfold isInt64; omega
      · simp only [hneg, decide_False, Bool.not_false, Bool.true_and, Bool.false_and,
          Bool.false_eq_true, if_false, decide_eq_true_eq] at h
        split_ifs at h with h3
        · exact absurd (Prod.mk.inj h).2 (by simp)
        · have := (Prod.mk.inj h).1
          unfold isInt64; omega

theorem ParseInt_ok_isInt64 (s : GoString) (h : (ParseInt s).2 = none) :
    isInt64 (ParseInt s).1 :=
  ParseInt_isInt64 s _ (Prod.ext rfl h)

theorem UserIDArg_ParseFromMessage_value (d : ArgDef) (part : GoString) (data : Data)
    (v : Value) (h : UserIDArg.ParseFromMessage d part data = (v, none)) :
    ∃ n, v = Value.int64 n ∧ isInt64 n := by
  simp only [UserIDArg.ParseFromMessage] at h
  split_ifs at h
  all_goals first
    | (have h2 := (Prod.mk.inj h).2
       simp at h2
       done)
    | (obtain ⟨rfl, -⟩ := Prod.mk.inj h
       exact ⟨_, rfl, ParseInt_ok_isInt64 _ (by first | assumption | exact not_not.mp ‹_›)⟩)

theorem IntArg_ParseFromMessage_value (i : IntArg) (d : ArgDef) (part : GoString) (data : Data)
    (v : Value) (h : i.ParseFromMessage d part data = (v, none)) :
    ∃ n, v = Value.int64 n ∧ isInt64 n ∧ ParseInt part = (n, none) ∧
      ¬ (i.Max ≠ i.Min ∧ (i.Max < n ∨ i.Min > n)) := by
  simp only [IntArg.ParseFromMessage] at h
  split_ifs at h with h1 h2
  · exact absurd (Prod.mk.inj h).2 (by simp)
  · exact absurd (Prod.mk.inj h).2 (by simp)
  · obtain ⟨rfl, -⟩ := Prod.mk.inj h
    have hp : ParseInt part = ((ParseInt part).1, none) := Prod.ext rfl (not_not.mp h1)
    exact ⟨_, rfl, ParseInt_isInt64 _ _ hp, hp, h2⟩

theorem UserIDArg_ParseFromInteraction_companion (U : UnicodeTables) (d : ArgDef) (data : Data)
    (sopts : SlashCommandsParseOptions) (o : DataOption) (n : Int)
    (h : sopts.Options (ToLower U d.Name) = none)
    (h2 : sopts.Options (ToLower U (d.Name ++ "-ID".toList)) = some o)
    (hv : o.Value = Value.string (FormatInt n)) (hn : isInt64 n) :
    UserIDArg.ParseFromInteraction U d data sopts = Run.ret (Value.int64 n, none) := by
  have hp := ParseInt_FormatInt n hn
  have hU : ExpectUserOpt U sopts d.Name = (none, false, none) := by
    simp [ExpectUserOpt, ExpectInt64Opt, h]
  have hS : ExpectString U sopts (d.Name ++ "-ID".toList) = (FormatInt n, none) := by
    unfold ExpectString ExpectStringOpt; rw [h2]; simp [hv]
  unfold UserIDArg.ParseFromInteraction
  rw [hU]
  simp only [hS, hp]
  simp

/-- C18 as stated fails: `UserIDArg` parses the token `123` to the id `123`
and declares its string option under the name `user-ID`; a payload storing the
text `123` under that name is not parsed back, because the option is looked up
under the lower-cased name `user-id`. -/
theorem UserIDArg_round_trip_declared_name :
    UserIDArg.ParseFromMessage defUser "123".toList ⟨none, none, none⟩ =
      (Value.int64 123, none) ∧
    (UserIDArg.SlashCommandOptions defUser).map (fun x => (x.Name, x.Kind)) =
      [("user-ID".toList, CommandOptionType.String), ("user".toList, CommandOptionType.User)] ∧
    UserIDArg.ParseFromInteraction asciiTables defUser ⟨none, none, none⟩
        (optionsSingle "user-ID" (Value.string (FormatInt 123))) =
      Run.ret (Value.nil,
        some (NewErrArgExpected "user-ID".toList "string".toList Value.nil)) := by
  refine ⟨by decide, by decide, by decide⟩

/-- C18, amended: round trip for `IntArg` (with `InteractionString` false and
true), `StringArg` and `UserIDArg`. When `ParseFromMessage` succeeds with the
value `v`, a payload that stores `v` under the lower-cased form of the option
name declared by `SlashCommandOptions`, as a structured integer for the
integer kind and as the value's text for the string kind (for `UserIDArg`
under the lower-cased `def.Name + "-ID"`, with nothing under `def.Name`), is
parsed by `ParseFromInteraction` back to `v`. -/
theorem round_trip_lower_cased (U : UnicodeTables) (d : ArgDef) (data : Data)
    (part : GoString) (sopts : SlashCommandsParseOptions) (o : DataOption) :
    (∀ (i : IntArg) (v : Value), i.InteractionString = false →
      i.ParseFromMessage d part data = (v, none) →
      (i.SlashCommandOptions d).map (fun x => (x.Name, x.Kind)) =
        [(d.Name, CommandOptionType.Integer)] ∧
      (sopts.Options (ToLower U d.Name) = some o → o.Value = v →
        i.ParseFromInteraction U d data sopts = (v, none))) ∧
    (∀ (i : IntArg) (v : Value), i.InteractionString = true →
      i.ParseFromMessage d part data = (v, none) →
      (i.SlashCommandOptions d).map (fun x => (x.Name, x.Kind)) =
        [(d.Name, CommandOptionType.String)] ∧
      ∃ n, v = Value.int64 n ∧
        (sopts.Options (ToLower U d.Name) = some o → o.Value = Value.string (FormatInt n) →
          i.ParseFromInteraction U d data sopts = (v, none))) ∧
    (∀ v : Value, StringArg.ParseFromMessage d part data = (v, none) →
      (StringArg.SlashCommandOptions d).map (fun x => (x.Name, x.Kind)) =
        [(d.Name, CommandOptionType.String)] ∧
      (sopts.Options (ToLower U d.Name) = some o → o.Value = v →
        StringArg.ParseFromInteraction U d data sopts = (v, none))) ∧
    (∀ v : Value, UserIDArg.ParseFromMessage d part data = (v, none) →
      (UserIDArg.SlashCommandOptions d).map (fun x => (x.Name, x.Kind)) =
        [(d.Name ++ "-ID".toList, CommandOptionType.String),
          (d.Name, CommandOptionType.User)] ∧
      ∃ n, v = Value.int64 n ∧
        (sopts.Options (ToLower U d.Name) = none →
          sopts.Options (ToLower U (d.Name ++ "-ID".toList)) = some o →
          o.Value = Value.string (FormatInt n) →
          UserIDArg.ParseFromInteraction U d data sopts = Run.ret (v, none))) := by
  refine ⟨fun i v hi h => ⟨?_, fun ho hv => ?_⟩, fun i v hi h => ⟨?_, ?_⟩,
    fun v h => ⟨?_, fun ho hv => ?_⟩, fun v h => ⟨?_, ?_⟩⟩
  · simp [IntArg.SlashCommandOptions, hi, ArgDef.StandardSlashCommandOption]
  · obtain ⟨n, rfl, -, -, hr⟩ := IntArg_ParseFromMessage_value i d part data v h
    simp [IntArg.ParseFromInteraction, ExpectAny, ExpectAnyOpt, ho, hv, hr]
  · simp [IntArg.SlashCommandOptions, hi, ArgDef.StandardSlashCommandOption]
  · obtain ⟨n, rfl, hn, -, hr⟩ := IntArg_ParseFromMessage_value i d part data v h
    refine ⟨n, rfl, fun ho hv => ?_⟩
    have hp := ParseInt_FormatInt n hn
    simp [IntArg.ParseFromInteraction, ExpectAny, ExpectAnyOpt, ho, hv, hp, hr]
  · simp [StringArg.SlashCommandOptions, ArgDef.StandardSlashCommandOption]
  · have hv2 : v = Value.string part := by
      simpa [StringArg.ParseFromMessage] using h.symm
    subst hv2
    simp [StringArg.ParseFromInteraction, ExpectString, ExpectStringOpt, ho, hv]
  · simp [UserIDArg.SlashCommandOptions, ArgDef.StandardSlashCommandOption]
  · obtain ⟨n, rfl, hn⟩ := UserIDArg_ParseFromMessage_value d part data v h
    refine ⟨n, rfl, fun h1 h2 hv => ?_⟩
    exact (UserIDArg_ParseFromInteraction_companion U d data sopts o n h1 h2 hv hn)

/-- C19 as stated fails: the directory holding `Bob` and `bob` gives, for the
query `bob`, the candidate list "`Bob`, `bob`" when enumerated in one order and
"`bob`, `Bob`" when enumerated in the other. -/
theorem FindDiscordMemberByName_order_dependent :
    guildBobThenLower.memberList.Perm guildLowerThenBob.memberList ∧
    FindDiscordMemberByName asciiTables none guildBobThenLower "bob".toList =
      (none, some (NewSimpleUserError (tooManyMessage "`Bob`, `bob`".toList))) ∧
    FindDiscordMemberByName asciiTables none guildLowerThenBob "bob".toList =
      (none, some (NewSimpleUserError (tooManyMessage "`bob`, `Bob`".toList))) ∧
    FindDiscordMemberByName asciiTables none guildBobThenLower "bob".toList ≠
      FindDiscordMemberByName asciiTables none guildLowerThenBob "bob".toList := by
  refine ⟨List.Perm.swap _ _ _, by decide, by decide, by decide⟩

/-! ## Enumeration order of the directory -/

theorem membersWhere_perm (p : Option MemberState → Bool) (ms ms2 : List (Option MemberState))
    (h : ms.Perm ms2) : (membersWhere p ms).Perm (membersWhere p ms2) :=
  (h.filter p).filterMap id

theorem classOf_tooMany (out : GoString) :
    classOf (none, some (NewSimpleUserError (tooManyMessage out))) = SearchClass.tooMany := by
  simp [classOf, NewSimpleUserError, tooManyMessage, List.isPrefixOf]

theorem classOf_didYouMean (out : GoString) :
    classOf (none, some (NewSimpleUserError (didYouMeanMessage out))) =
      SearchClass.didYouMean := by
  simp [classOf, NewSimpleUserError, didYouMeanMessage, List.isPrefixOf]

/-- The outcome of the search in terms of the numbers of full and partial
matches of the directory. -/
theorem classOf_FindDiscordMemberByName (U : UnicodeTables) (gs : GuildState) (str : GoString) :
    classOf (FindDiscordMemberByName U none gs str) =
      if (membersWhere (isFullMatch U str) gs.memberList).length = 1 then SearchClass.unique
      else if 1 < (membersWhere (isFullMatch U str) gs.memberList).length then
        SearchClass.tooMany
      else if (membersWhere (isPartialMatch U str) gs.memberList).length = 0 then
        SearchClass.notFound
      else SearchClass.didYouMean := by
  rw [FindDiscordMemberByName_eq]
  rcases hF : membersWhere (isFullMatch U str) gs.memberList with _ | ⟨a, _ | ⟨b, rest⟩⟩
  · by_cases hP : membersWhere (isPartialMatch U str) gs.memberList = []
    · simp [hP, classOf]
    · have hl : (membersWhere (isPartialMatch U str) gs.memberList).length ≠ 0 := by
        simpa using hP
      simp only [hP, if_false, List.length_nil, Nat.zero_ne_one, Nat.not_lt_zero, hl,
        classOf_didYouMean]
  · simp [classOf]
  · simp only [List.length_cons, classOf_tooMany]
    simp

/-- C19, amended: with no hook installed, two enumerations of the same
directory give the same outcome (unique match, not found, too many, did you
mean), never another one, and the same member on a unique match; and one
enumeration order gives one result, candidate list and its order included. -/
theorem FindDiscordMemberByName_repeatable (U : UnicodeTables) (gs gs2 : GuildState)
    (str : GoString) :
    (gs.memberList.Perm gs2.memberList →
      classOf (FindDiscordMemberByName U none gs str) =
        classOf (FindDiscordMemberByName U none gs2 str) ∧
      classOf (FindDiscordMemberByName U none gs str) ≠ SearchClass.other ∧
      ∀ m, FindDiscordMemberByName U none gs str = (some m, none) →
        FindDiscordMemberByName U none gs2 str = (some m, none)) ∧
    (gs.memberList = gs2.memberList →
      FindDiscordMemberByName U none gs str = FindDiscordMemberByName U none gs2 str) := by
  refine ⟨fun hperm => ?_, fun heq => ?_⟩
  · have hF := membersWhere_perm (isFullMatch U str) _ _ hperm
    have hP := membersWhere_perm (isPartialMatch U str) _ _ hperm
    refine ⟨?_, ?_, fun m hm => ?_⟩
    · rw [classOf_FindDiscordMemberByName, classOf_FindDiscordMemberByName, hF.length_eq,
        hP.length_eq]
    · rw [classOf_FindDiscordMemberByName]
      split_ifs <;> simp
    · rw [FindDiscordMemberByName_eq] at hm ⊢
      rcases hF1 : membersWhere (isFullMatch U str) gs.memberList with _ | ⟨a, _ | ⟨b, rest⟩⟩
      · rw [hF1] at hm; split_ifs at hm <;> simp at hm
      · rw [hF1] at hm hF
        have h2 := List.perm_singleton.mp hF.symm
        rw [h2]
        exact hm
      · rw [hF1] at hm; simp at hm
  · simp only [FindDiscordMemberByName]
    rw [show gs.Members.map Prod.snd = gs.memberList from rfl,
      show gs2.Members.map Prod.snd = gs2.memberList from rfl, heq]

/-! ## UTF-8 round trip of one rune -/

theorem toNat_ofNat_byte (n : Nat) (h : n < 256) : (Char.ofNat n).toNat = n := by
  have hv : n.isValidChar := Or.inl (by omega)
  simp only [Char.ofNat, hv, dite_true, Char.ofNatAux, Char.toNat]
  show (UInt32.ofNat' n _).toNat = n
  simp [UInt32.ofNat', UInt32.toNat]

theorem byteAt_zero (c : Char) (s : GoString) : byteAt (c :: s) 0 = c.toNat := rfl

theorem byteAt_succ (c : Char) (s : GoString) (i : Nat) :
    byteAt (c :: s) (i + 1) = byteAt s i := rfl

theorem utf8Size_two (b0 : Nat) (h : 0xC2 ≤ b0 ∧ b0 ≤ 0xDF) : utf8Size b0 = 2 := by
  unfold utf8Size; rw [if_pos h]

theorem utf8Size_three (b0 : Nat) (h : 0xE0 ≤ b0 ∧ b0 ≤ 0xEF) : utf8Size b0 = 3 := by
  unfold utf8Size; rw [if_neg (by omega), if_pos h]

theorem utf8Size_four (b0 : Nat) (h : 0xF0 ≤ b0 ∧ b0 ≤ 0xF4) : utf8Size b0 = 4 := by
  unfold utf8Size; rw [if_neg (by omega), if_neg (by omega), if_pos h]

theorem DecodeRune_ascii (s : GoString) (hlen : 1 ≤ s.length) (h0 : byteAt s 0 < 0x80) :
    DecodeRune s = (byteAt s 0, 1) := by
  unfold DecodeRune
  rw [if_neg (show ¬ s.length < 1 by omega), if_pos h0]

theorem DecodeRune_two (s : GoString) (hlen : 2 ≤ s.length)
    (h0 : 0xC2 ≤ byteAt s 0 ∧ byteAt s 0 ≤ 0xDF)
    (h1 : 0x80 ≤ byteAt s 1 ∧ byteAt s 1 ≤ 0xBF) :
    DecodeRune s = ((byteAt s 0 - 0xC0) * 64 + (byteAt s 1 - 0x80), 2) := by
  have hlo : acceptLo (byteAt s 0) = 0x80 := by
    unfold acceptLo; rw [if_neg (by omega), if_neg (by omega)]
  have hhi : acceptHi (byteAt s 0) = 0xBF := by
    unfold acceptHi; rw [if_neg (by omega), if_neg (by omega)]
  unfold DecodeRune
  rw [utf8Size_two _ h0, hlo, hhi, if_neg (show ¬ s.length < 1 by omega),
    if_neg (show ¬ byteAt s 0 < 0x80 by omega), if_neg (show ¬ (2 = 1) by decide),
    if_neg (show ¬ s.length < 2 by omega),
    if_neg (show ¬ (byteAt s 1 < 0x80 ∨ 0xBF < byteAt s 1) by omega),
    if_pos (show 2 ≤ 2 by decide)]

theorem DecodeRune_three (s : GoString) (hlen : 3 ≤ s.length)
    (h0 : 0xE0 ≤ byteAt s 0 ∧ byteAt s 0 ≤ 0xEF)
    (h1 : acceptLo (byteAt s 0) ≤ byteAt s 1 ∧ byteAt s 1 ≤ acceptHi (byteAt s 0))
    (h2 : 0x80 ≤ byteAt s 2 ∧ byteAt s 2 ≤ 0xBF) :
    DecodeRune s =
      ((byteAt s 0 - 0xE0) * 4096 + (byteAt s 1 - 0x80) * 64 + (byteAt s 2 - 0x80), 3) := by
  unfold DecodeRune
  rw [utf8Size_three _ h0, if_neg (show ¬ s.length < 1 by omega),
    if_neg (show ¬ byteAt s 0 < 0x80 by omega), if_neg (show ¬ (3 = 1) by decide),
    if_neg (show ¬ s.length < 3 by omega),
    if_neg (show ¬ (byteAt s 1 < acceptLo (byteAt s 0) ∨ acceptHi (byteAt s 0) < byteAt s 1)
      by omega),
    if_neg (show ¬ (3 ≤ 2) by decide),
    if_neg (show ¬ (byteAt s 2 < 0x80 ∨ 0xBF < byteAt s 2) by omega),
    if_pos (show 3 ≤ 3 by decide)]

theorem DecodeRune_four (s : GoString) (hlen : 4 ≤ s.length)
    (h0 : 0xF0 ≤ byteAt s 0 ∧ byteAt s 0 ≤ 0xF4)
    (h1 : acceptLo (byteAt s 0) ≤ byteAt s 1 ∧ byteAt s 1 ≤ acceptHi (byteAt s 0))
    (h2 : 0x80 ≤ byteAt s 2 ∧ byteAt s 2 ≤ 0xBF)
    (h3 : 0x80 ≤ byteAt s 3 ∧ byteAt s 3 ≤ 0xBF) :
    DecodeRune s =
      ((byteAt s 0 - 0xF0) * 262144 + (byteAt s 1 - 0x80) * 4096 + (byteAt s 2 - 0x80) * 64 +
        (byteAt s 3 - 0x80), 4) := by
  unfold DecodeRune
  rw [utf8Size_four _ h0, if_neg (show ¬ s.length < 1 by omega),
    if_neg (show ¬ byteAt s 0 < 0x80 by omega), if_neg (show ¬ (4 = 1) by decide),
    if_neg (show ¬ s.length < 4 by omega),
    if_neg (show ¬ (byteAt s 1 < acceptLo (byteAt s 0) ∨ acceptHi (byteAt s 0) < byteAt s 1)
      by omega),
    if_neg (show ¬ (4 ≤ 2) by decide),
    if_neg (show ¬ (byteAt s 2 < 0x80 ∨ 0xBF < byteAt s 2) by omega),
    if_neg (show ¬ (4 ≤ 3) by decide),
    if_neg (show ¬ (byteAt s 3 < 0x80 ∨ 0xBF < byteAt s 3) by omega)]

theorem acceptLo_le (b0 b1 : Nat) (h : (b0 = 0xE0 → 0xA0 ≤ b1) ∧ (b0 = 0xF0 → 0x90 ≤ b1) ∧
    0x80 ≤ b1) : acceptLo b0 ≤ b1 := by
  unfold acceptLo; split_ifs <;> omega

theorem le_acceptHi (b0 b1 : Nat) (h : (b0 = 0xED → b1 ≤ 0x9F) ∧ (b0 = 0xF4 → b1 ≤ 0x8F) ∧
    b1 ≤ 0xBF) : b1 ≤ acceptHi b0 := by
  unfold acceptHi; split_ifs <;> omega

theorem DecodeRune_EncodeRune (r : Nat) (hr : validRune r) (rest : GoString) :
    DecodeRune (EncodeRune r ++ rest) = (r, (EncodeRune r).length) := by
  obtain ⟨hmax, hsur⟩ := hr
  unfold EncodeRune
  split_ifs with h1 h2 h3 h4
  · have e0 := toNat_ofNat_byte r (by omega)
    rw [DecodeRune_ascii _ (by simp) (by simp only [List.singleton_append, byteAt_zero, e0]; exact h1)]
    simp only [List.singleton_append, byteAt_zero, e0, List.length_cons, List.length_nil]
  · have e0 := toNat_ofNat_byte (0xC0 + r / 64) (by omega)
    have e1 := toNat_ofNat_byte (0x80 + r % 64) (by omega)
    rw [DecodeRune_two _ (by simp)
      (by simp only [List.cons_append, byteAt_zero, e0]; omega)
      (by simp only [List.cons_append, byteAt_succ, byteAt_zero, e1]; omega)]
    simp only [List.cons_append, byteAt_succ, byteAt_zero, e0, e1, List.length_cons,
      List.length_nil, Prod.mk.injEq, and_true]
    omega
  · exact absurd h3 (by omega)
  · have e0 := toNat_ofNat_byte (0xE0 + r / 4096) (by omega)
    have e1 := toNat_ofNat_byte (0x80 + r / 64 % 64) (by omega)
    have e2 := toNat_ofNat_byte (0x80 + r % 64) (by omega)
    rw [DecodeRune_three _ (by simp)
      (by simp only [List.cons_append, byteAt_zero, e0]; omega)
      (by
        simp only [List.cons_append, byteAt_succ, byteAt_zero, e0, e1]
        exact ⟨acceptLo_le _ _ (by omega), le_acceptHi _ _ (by omega)⟩)
      (by simp only [List.cons_append, byteAt_succ, byteAt_zero, e2]; omega)]
    simp only [List.cons_append, byteAt_succ, byteAt_zero, e0, e1, e2, List.length_cons,
      List.length_nil, Prod.mk.injEq, and_true]
    omega
  · have e0 := toNat_ofNat_byte (0xF0 + r / 262144) (by omega)
    have e1 := toNat_ofNat_byte (0x80 + r / 4096 % 64) (by omega)
    have e2 := toNat_ofNat_byte (0x80 + r / 64 % 64) (by omega)
    have e3 := toNat_ofNat_byte (0x80 + r % 64) (by omega)
    rw [DecodeRune_four _ (by simp)
      (by simp only [List.cons_append, byteAt_zero, e0]; omega)
      (by
        simp only [List.cons_append, byteAt_succ, byteAt_zero, e0, e1]
        exact ⟨acceptLo_le _ _ (by omega), le_acceptHi _ _ (by omega)⟩)
      (by simp only [List.cons_append, byteAt_succ, byteAt_zero, e2]; omega)
      (by simp only [List.cons_append, byteAt_succ, byteAt_zero, e3]; omega)]
    simp only [List.cons_append, byteAt_succ, byteAt_zero, e0, e1, e2, e3, List.length_cons,
      List.length_nil, Prod.mk.injEq, and_true]
    omega

theorem utf8Size_cases (b : Nat) :
    utf8Size b = 1 ∨ (utf8Size b = 2 ∧ 0xC2 ≤ b ∧ b ≤ 0xDF) ∨
      (utf8Size b = 3 ∧ 0xE0 ≤ b ∧ b ≤ 0xEF) ∨ (utf8Size b = 4 ∧ 0xF0 ≤ b ∧ b ≤ 0xF4) := by
  unfold utf8Size
  split_ifs with h1 h2 h3
  · exact Or.inr (Or.inl ⟨rfl, h1⟩)
  · exact Or.inr (Or.inr (Or.inl ⟨rfl, h2⟩))
  · exact Or.inr (Or.inr (Or.inr ⟨rfl, h3⟩))
  · exact Or.inl rfl

theorem validRune_RuneError : validRune RuneError := by
  unfold validRune RuneError; omega

theorem acceptLo_ge (b0 b1 : Nat) (h : ¬ b1 < acceptLo b0) :
    0x80 ≤ b1 ∧ (b0 = 0xE0 → 0xA0 ≤ b1) ∧ (b0 = 0xF0 → 0x90 ≤ b1) := by
  unfold acceptLo at h; split_ifs at h <;> omega

theorem acceptHi_le (b0 b1 : Nat) (h : ¬ acceptHi b0 < b1) :
    b1 ≤ 0xBF ∧ (b0 = 0xED → b1 ≤ 0x9F) ∧ (b0 = 0xF4 → b1 ≤ 0x8F) := by
  unfold acceptHi at h; split_ifs at h <;> omega

theorem DecodeRune_valid (s : GoString) : validRune (DecodeRune s).1 := by
  unfold DecodeRune
  split_ifs with h1 h2 h3 h4 h5 h6 h7 h8 h9
  all_goals dsimp only
  all_goals first
    | with_reducible exact validRune_RuneError
    | skip
  · exact ⟨by omega, by omega⟩
  all_goals
    have ha := acceptLo_ge _ _ (fun h => h5 (Or.inl h))
    have hb := acceptHi_le _ _ (fun h => h5 (Or.inr h))
    rcases utf8Size_cases (byteAt s 0) with h | ⟨h, hc⟩ | ⟨h, hc⟩ | ⟨h, hc⟩
    all_goals first
      | omega
      | exact ⟨by omega, by omega⟩

theorem DecodeRune_width_pos (c : Char) (cs : GoString) : 1 ≤ (DecodeRune (c :: cs)).2 := by
  unfold DecodeRune
  rw [if_neg (by simp)]
  split_ifs <;> simp

theorem EncodeRune_ne_nil (r : Nat) : EncodeRune r ≠ [] := by
  unfold EncodeRune; split_ifs <;> simp

/-! ## `cutStringShort` and the option description -/

theorem rangeRunesAux_valid (fuel : Nat) : ∀ (s : GoString) (r : Nat),
    r ∈ rangeRunesAux fuel s → validRune r := by
  induction fuel with
  | zero => intro s r h; simp [rangeRunesAux] at h
  | succ fuel ih =>
    intro s r h
    cases s with
    | nil => simp [rangeRunesAux] at h
    | cons c cs =>
      rw [rangeRunesAux] at h
      rcases List.mem_cons.mp h with h | h
      · rw [h]; exact DecodeRune_valid _
      · exact ih _ r h

theorem rangeRunes_valid (s : GoString) (r : Nat) (h : r ∈ rangeRunes s) : validRune r :=
  rangeRunesAux_valid _ s r h

theorem rangeRunesAux_fuel (fuel1 : Nat) : ∀ (fuel2 : Nat) (s : GoString),
    s.length ≤ fuel1 → s.length ≤ fuel2 → rangeRunesAux fuel1 s = rangeRunesAux fuel2 s := by
  induction fuel1 with
  | zero =>
    intro fuel2 s h1 _
    have : s = [] := List.length_eq_zero.mp (by omega)
    subst this
    cases fuel2 <;> rfl
  | succ fuel1 ih =>
    intro fuel2 s h1 h2
    cases s with
    | nil => cases fuel2 <;> rfl
    | cons c cs =>
      cases fuel2 with
      | zero => simp at h2
      | succ fuel2 =>
        rw [rangeRunesAux, rangeRunesAux]
        have hw := DecodeRune_width_pos c cs
        have hl : ((c :: cs).drop (DecodeRune (c :: cs)).2).length ≤ cs.length := by
          simp only [List.length_drop, List.length_cons]; omega
        simp only [List.length_cons] at h1 h2
        rw [ih fuel2 _ (by omega) (by omega)]

theorem encodeRunes_cons (r : Nat) (rs : List Nat) :
    encodeRunes (r :: rs) = EncodeRune r ++ encodeRunes rs := by
  simp [encodeRunes]

theorem encodeRunes_append (a b : List Nat) :
    encodeRunes (a ++ b) = encodeRunes a ++ encodeRunes b := by
  simp [encodeRunes]

theorem encodeRunes_singleton (r : Nat) : encodeRunes [r] = EncodeRune r := by
  simp [encodeRunes]

theorem rangeRunes_encodeRunes_append (xs : List Nat) : ∀ (ys : GoString),
    (∀ r ∈ xs, validRune r) → rangeRunes (encodeRunes xs ++ ys) = xs ++ rangeRunes ys := by
  induction xs with
  | nil => intro ys _; simp [encodeRunes]
  | cons x xs ih =>
    intro ys hv
    have hx := hv x (List.mem_cons_self _ _)
    have hd := DecodeRune_EncodeRune x hx (encodeRunes xs ++ ys)
    rw [encodeRunes_cons, List.append_assoc]
    obtain ⟨c, cs, hc⟩ := List.exists_cons_of_ne_nil (EncodeRune_ne_nil x)
    have hs : EncodeRune x ++ (encodeRunes xs ++ ys) = c :: (cs ++ (encodeRunes xs ++ ys)) := by
      rw [hc]; rfl
    unfold rangeRunes
    rw [hs, List.length_cons, rangeRunesAux, ← hs, hd, List.drop_left]
    simp only [List.cons_append, List.cons.injEq, true_and]
    have ih2 := ih ys (fun r hr => hv r (List.mem_cons_of_mem _ hr))
    unfold rangeRunes at ih2
    rw [← ih2]
    exact rangeRunesAux_fuel _ _ _ (by simp) (le_refl _)

theorem ReadRune_encode (b : Nat) (hb : validRune b) (rest : GoString) :
    ReadRune (EncodeRune b ++ rest) = (b, rest) := by
  unfold ReadRune
  rw [if_neg (by simp [EncodeRune_ne_nil]), DecodeRune_EncodeRune b hb rest, List.drop_left]

theorem cutLoop_eq (l : Nat) (hl : 4 ≤ l) : ∀ (rs A B : List Nat) (i : Nat),
    (∀ r ∈ B, validRune r) → (∀ r ∈ rs, validRune r) → B.length = min i 4 →
    (A ++ B).length = i → i ≤ l →
    cutLoop l rs (encodeRunes A) (encodeRunes B) i =
      if rs.length + i ≤ l then encodeRunes (A ++ B ++ rs)
      else encodeRunes ((A ++ B ++ rs).take (l - 3)) ++ "...".toList := by
  intro rs
  induction rs with
  | nil =>
    intro A B i _ _ _ _ hi
    simp [cutLoop, hi, encodeRunes_append]
  | cons r rs ih =>
    intro A B i hB hrs hBl hAB hi
    have hr := hrs r (List.mem_cons_self _ _)
    have hrs2 : ∀ x ∈ rs, validRune x := fun x hx => hrs x (List.mem_cons_of_mem _ hx)
    rw [cutLoop]
    have hl1 : encodeRunes B ++ EncodeRune r = encodeRunes (B ++ [r]) := by
      rw [encodeRunes_append, encodeRunes_singleton]
    simp only [hl1]
    by_cases h3 : i > 3
    · have hB4 : B.length = 4 := by omega
      obtain ⟨b, B2, rfl⟩ := List.exists_cons_of_ne_nil (by
        intro h; rw [h] at hB4; simp at hB4 : B ≠ [])
      have hb := hB b (List.mem_cons_self _ _)
      have hread : ReadRune (encodeRunes (b :: B2 ++ [r])) = (b, encodeRunes (B2 ++ [r])) := by
        rw [List.cons_append, encodeRunes_cons]; exact ReadRune_encode b hb _
      simp only [h3, if_true, hread]
      have hm : encodeRunes A ++ EncodeRune b = encodeRunes (A ++ [b]) := by
        rw [encodeRunes_append, encodeRunes_singleton]
      rw [hm]
      simp only [List.length_append, List.length_cons] at hAB hB4
      have hassoc : A ++ b :: B2 ++ r :: rs = (A ++ [b]) ++ (B2 ++ [r]) ++ rs := by simp
      by_cases hge : i ≥ l
      · have hil : i = l := by omega
        rw [if_pos hge, if_neg (by simp only [List.length_cons]; omega)]
        have htake : (A ++ b :: B2 ++ r :: rs).take (l - 3) = A ++ [b] := by
          have hlen : (A ++ [b]).length = l - 3 := by simp; omega
          have : A ++ b :: B2 ++ r :: rs = (A ++ [b]) ++ (B2 ++ r :: rs) := by simp
          rw [this, ← hlen, List.take_left]
        rw [htake]
      · rw [if_neg hge]
        have hBll : (B2 ++ [r]).length = min (i + 1) 4 := by simp; omega
        rw [ih (A ++ [b]) (B2 ++ [r]) (i + 1)
          (fun x hx => by
            rcases List.mem_append.mp hx with h | h
            · exact hB x (List.mem_cons_of_mem _ h)
            · rw [List.mem_singleton.mp h]; exact hr)
          hrs2 hBll (by simp; omega) (by omega), hassoc]
        have hcond : (rs.length + (i + 1) ≤ l) = ((r :: rs).length + i ≤ l) := by
          simp only [List.length_cons]; apply propext; constructor <;> intro h <;> omega
        simp only [hcond]
    · have hBi : B.length = i := by omega
      have hA : A = [] := by
        simp only [List.length_append] at hAB
        exact List.length_eq_zero.mp (by omega)
      subst hA
      have h3f : ¬ (i > 3) := h3
      simp only [h3f, if_false]
      rw [if_neg (by omega : ¬ i ≥ l)]
      have hassoc : [] ++ B ++ r :: rs = [] ++ (B ++ [r]) ++ rs := by simp
      rw [show encodeRunes ([] : List Nat) = encodeRunes [] from rfl,
        ih [] (B ++ [r]) (i + 1)
          (fun x hx => by
            rcases List.mem_append.mp hx with h | h
            · exact hB x h
            · rw [List.mem_singleton.mp h]; exact hr)
          hrs2 (by simp; omega) (by simp; omega) (by omega), hassoc]
      have hcond : (rs.length + (i + 1) ≤ l) = ((r :: rs).length + i ≤ l) := by
        simp only [List.length_cons]; apply propext; constructor <;> intro h <;> omega
      simp only [hcond]

theorem cutStringShort_eq (s : GoString) (l : Nat) (hl : 4 ≤ l) :
    cutStringShort s l =
      if RuneCount s ≤ l then encodeRunes (rangeRunes s)
      else encodeRunes ((rangeRunes s).take (l - 3)) ++ "...".toList := by
  have h := cutLoop_eq l hl (rangeRunes s) [] [] 0 (by simp) (rangeRunes_valid s) (by simp)
    (by simp) (by omega)
  simpa [cutStringShort, RuneCount, encodeRunes] using h

theorem rangeRunes_nil : rangeRunes [] = [] := rfl

theorem rangeRunes_ascii (s : GoString) (h : s.all isASCIIByte = true) :
    rangeRunes s = s.map Char.toNat := by
  induction s with
  | nil => rfl
  | cons c cs ih =>
    simp only [List.all_cons, Bool.and_eq_true] at h
    have hc : c.toNat < 0x80 := by simpa [isASCIIByte] using h.1
    have hd := DecodeRune_ascii (c :: cs) (by simp) (by rw [byteAt_zero]; exact hc)
    unfold rangeRunes at ih ⊢
    rw [List.length_cons, rangeRunesAux, hd, byteAt_zero]
    simp only [List.drop_succ_cons, List.drop_zero, List.map_cons, List.cons.injEq, true_and]
    exact ih h.2

theorem ValidUTF8_of_ascii (s : GoString) (h : s.all isASCIIByte = true) :
    ValidUTF8 s ∧ RuneCount s = s.length := by
  unfold ValidUTF8 RuneCount
  rw [rangeRunes_ascii s h]
  refine ⟨?_, by simp⟩
  induction s with
  | nil => rfl
  | cons c cs ih =>
    simp only [List.all_cons, Bool.and_eq_true] at h
    have hc : c.toNat < 0x80 := by simpa [isASCIIByte] using h.1
    rw [List.map_cons, encodeRunes_cons, ih h.2]
    simp [EncodeRune, hc]

/-- C20 as stated fails: for the `ArgDef` whose `Help` is the single byte
`0xFF`, one character long, the `Description` is not `Help`; it is the three
bytes `EF BF BD`, the UTF-8 form of U+FFFD. -/
theorem StandardSlashCommandOption_invalid_byte :
    RuneCount defInvalidHelp.Help = 1 ∧
    (defInvalidHelp.StandardSlashCommandOption CommandOptionType.String).Description ≠
      defInvalidHelp.Help ∧
    (defInvalidHelp.StandardSlashCommandOption CommandOptionType.String).Description =
      [Char.ofNat 0xEF, Char.ofNat 0xBF, Char.ofNat 0xBD] := by
  refine ⟨by decide, by decide, by decide⟩

/-- C20, amended: `StandardSlashCommandOption` returns an option with
`Name = def.Name` and `Kind = typ`; its `Description` is `def.Name` when `Help`
is empty; when `Help` has 1 to 100 characters it is the UTF-8 text of the
characters of `Help`, which is `Help` itself when `Help` is valid UTF-8; when
`Help` has more than 100 characters it is the UTF-8 text of the first 97
characters of `Help` followed by `...`, 100 characters in all, and those 97
characters are a prefix of `Help` when `Help` is valid UTF-8. Characters are
the runes that `range` reads, an invalid byte being read as U+FFFD. -/
theorem StandardSlashCommandOption_description (d : ArgDef) (typ : CommandOptionType) :
    (d.StandardSlashCommandOption typ).Name = d.Name ∧
    (d.StandardSlashCommandOption typ).Kind = typ ∧
    (d.Help = [] → (d.StandardSlashCommandOption typ).Description = d.Name) ∧
    (1 ≤ RuneCount d.Help → RuneCount d.Help ≤ 100 →
      (d.StandardSlashCommandOption typ).Description = encodeRunes (rangeRunes d.Help)) ∧
    (ValidUTF8 d.Help → 1 ≤ RuneCount d.Help → RuneCount d.Help ≤ 100 →
      (d.StandardSlashCommandOption typ).Description = d.Help) ∧
    (100 < RuneCount d.Help →
      (d.StandardSlashCommandOption typ).Description =
        encodeRunes ((rangeRunes d.Help).take 97) ++ "...".toList ∧
      RuneCount (d.StandardSlashCommandOption typ).Description = 100 ∧
      (ValidUTF8 d.Help → encodeRunes ((rangeRunes d.Help).take 97) <+: d.Help)) := by
  have hcut := cutStringShort_eq d.Help 100 (by decide)
  refine ⟨rfl, rfl, fun h => ?_, fun h1 h100 => ?_, fun hv h1 h100 => ?_, fun h => ?_⟩
  · have : cutStringShort d.Help 100 = [] := by
      rw [hcut, h]; simp [RuneCount, rangeRunes_nil, encodeRunes]
    simp [ArgDef.StandardSlashCommandOption, this]
  · have hc : cutStringShort d.Help 100 = encodeRunes (rangeRunes d.Help) := by
      rw [hcut, if_pos h100]
    have hne : cutStringShort d.Help 100 ≠ [] := by
      rw [hc]
      unfold RuneCount at h1
      cases hr : rangeRunes d.Help with
      | nil => rw [hr] at h1; simp at h1
      | cons r rs =>
        rw [encodeRunes_cons]
        intro h0
        exact EncodeRune_ne_nil r (List.append_eq_nil.mp h0).1
    simp only [ArgDef.StandardSlashCommandOption, hne, if_false]
    exact hc
  · have hne : d.Help ≠ [] := by
      intro h0; rw [h0] at h1; simp [RuneCount, rangeRunes_nil] at h1
    have : cutStringShort d.Help 100 = d.Help := by
      rw [hcut, if_pos h100]; exact hv
    simp [ArgDef.StandardSlashCommandOption, this, hne]
  · have hc : cutStringShort d.Help 100 =
        encodeRunes ((rangeRunes d.Help).take 97) ++ "...".toList := by
      rw [hcut, if_neg (by omega)]
    have hne : cutStringShort d.Help 100 ≠ [] := by rw [hc]; simp
    have hdesc : (d.StandardSlashCommandOption typ).Description =
        encodeRunes ((rangeRunes d.Help).take 97) ++ "...".toList := by
      simp only [ArgDef.StandardSlashCommandOption, hne, if_false]; exact hc
    refine ⟨hdesc, ?_, fun hv => ?_⟩
    · rw [hdesc]
      unfold RuneCount at h ⊢
      rw [rangeRunes_encodeRunes_append _ _
        (fun r hr => rangeRunes_valid d.Help r (List.mem_of_mem_take hr))]
      have h3 : rangeRunes "...".toList = [46, 46, 46] := by decide
      rw [h3, List.length_append, List.length_take]
      simp only [List.length_cons, List.length_nil]
      omega
    · refine ⟨encodeRunes ((rangeRunes d.Help).drop 97), ?_⟩
      rw [← encodeRunes_append, List.take_append_drop]
      exact hv

/-! ## `UserArg` with `RequireMention` -/

/-- The part of the mention rule that `UserArg.ParseFromMessage` keeps with
`RequireMention` set: the tokens `<@d>` and `<@!d>`, with `d` the base-10 text
of `n`, give the first user of the mention list whose id is `n`, and
`ImproperMention` when there is none; a token that does not begin with `<@` or
has at most three bytes gives `ImproperMention`; the guild directory is not
read. -/
theorem UserArg_ParseFromMessage_mention (U : UnicodeTables) (hook : Option UsernameSearchFunc)
    (d : ArgDef) (gd : Option GuildState) (mentions : List User) (session : Option Session)
    (n : Int) (hn : isInt64 n) (part : GoString)
    (hpart : part = "<@".toList ++ FormatInt n ++ ">".toList ∨
      part = "<@!".toList ++ FormatInt n ++ ">".toList) :
    UserArg.ParseFromMessage U hook ⟨true⟩ d part ⟨gd, some mentions, session⟩ =
      match findMention n mentions with
      | some v => Run.ret (Value.user v, none)
      | none => Run.ret (Value.nil, some (Error.ImproperMention part)) := by
  have hp := ParseInt_FormatInt n hn
  obtain ⟨c, rest, hc, hd⟩ := FormatInt_head n
  have hne : c ≠ '!' := by
    rcases hd with h | h
    · rw [h]; decide
    · rintro rfl; exact absurd h.1 (by decide)
  have hid : mentionID part = FormatInt n := by
    rcases hpart with h | h
    · have e := take_drop_mention ['<', '@'] (FormatInt n) '>' rfl
      have hh : (FormatInt n).head? ≠ some '!' := by rw [hc]; simpa using hne
      rw [h, mentionID]
      simp only [show ("<@".toList : GoString) = ['<', '@'] from rfl,
        show (">".toList : GoString) = ['>'] from rfl, e, if_neg hh]
    · have e := take_drop_mention ['<', '@'] ('!' :: FormatInt n) '>' rfl
      have hform : "<@!".toList ++ FormatInt n ++ ">".toList =
          ['<', '@'] ++ ('!' :: FormatInt n) ++ ['>'] := by simp
      rw [h, mentionID, hform]
      simp only [e, List.head?_cons, if_true, List.drop_succ_cons, List.drop_zero]
  have hpre : (HasPrefix part "<@".toList && decide (part.length > 3)) = true := by
    rcases hpart with h | h <;> rw [h, hc] <;> simp [HasPrefix, List.isPrefixOf]
  unfold UserArg.ParseFromMessage
  rw [if_pos hpre]
  simp only [hid, hp]

theorem UserArg_ParseFromMessage_other (U : UnicodeTables) (hook : Option UsernameSearchFunc)
    (d : ArgDef) (data : Data) (part : GoString)
    (h : HasPrefix part "<@".toList = false ∨ part.length ≤ 3) :
    UserArg.ParseFromMessage U hook ⟨true⟩ d part data =
      Run.ret (Value.nil, some (Error.ImproperMention part)) := by
  have hpre : ¬ ((HasPrefix part "<@".toList && decide (part.length > 3)) = true) := by
    rcases h with h | h
    · rw [h]; simp
    · simp; intro _; omega
  unfold UserArg.ParseFromMessage
  rw [if_neg hpre]
  simp

/-! ## Typed accessors, float arguments and resolved members -/

theorem wrapSigned_of_isInt64 (v : Int) (h : isInt64 v) : wrapSigned 64 v = v := by
  obtain ⟨h1, h2⟩ := h
  unfold wrapSigned
  norm_num at h1 h2 ⊢
  omega

/-- C21 as stated fails: a `ParsedArg` whose `Value` holds a nil
`*AdvUserMatch` is not the nil interface, so the test `p.Value == nil` is
passed, and `MemberState` and `User` stop in a panic on `t.Member` and
`t.User`; `User` does so on a nil `*dstate.MemberState` as well. -/
theorem ParsedArg_nil_pointer_faults :
    Value.nilPointer PointerKind.advUserMatch ≠ Value.nil ∧
    ParsedArg.MemberState ⟨defN, Value.nilPointer PointerKind.advUserMatch, none⟩ = Run.fault ∧
    ParsedArg.User ⟨defN, Value.nilPointer PointerKind.advUserMatch, none⟩ = Run.fault ∧
    ParsedArg.User ⟨defN, Value.nilPointer PointerKind.memberState, none⟩ = Run.fault := by
  refine ⟨by decide, by decide, by decide, by decide⟩

/-- C21, amended: the typed accessors of `ParsedArg` do not fail on a `Value`
that is not a nil pointer stored in the interface, and `Str`, `Int`, `Int64`,
`Bool` and `AdvUser` do not fail at all. When `Value` is absent, and when it
has a dynamic kind the accessor does not handle, `Str` returns the empty
string, `Int` and `Int64` return 0, `Bool` returns false, and `MemberState`,
`User` and `AdvUser` return nil. On a matching kind the stored value is
returned: `Str` of a string is that string, `Int64` of an `int64` is that
integer, `Bool` of a boolean is that boolean, `Str` of an integer is the
base-10 text of its `Int64`, `Int` and `Int64` of an integer kind are its
conversion to `int` and `int64`, `MemberState` and `User` of a member state
are it and its user, and `MemberState`, `User` and `AdvUser` of a match are
its `Member`, its `User` and the match. -/
theorem ParsedArg_accessors (p : ParsedArg) (intBits : Nat) :
    (p.Value = Value.nil →
      p.Str = [] ∧ p.Int intBits = 0 ∧ p.Int64 = 0 ∧ p.Bool = false ∧
      p.MemberState = Run.ret none ∧ p.User = Run.ret none ∧ p.AdvUser = Run.ret none) ∧
    (p.Value.isStringKind = false → p.Value.isIntegerKind = false → p.Str = []) ∧
    (p.Value.isIntegerKind = false → p.Int intBits = 0 ∧ p.Int64 = 0) ∧
    (p.Value.isBoolKind = false → p.Value.isIntegerKind = false →
      p.Value.isStringKind = false → p.Bool = false) ∧
    (p.Value.isMemberStateKind = false → p.Value.isAdvUserMatchKind = false →
      p.MemberState = Run.ret none ∧ p.User = Run.ret none) ∧
    (p.Value.isAdvUserMatchKind = false → p.AdvUser = Run.ret none) ∧
    (∀ s, p.Value = Value.string s → p.Str = s ∧ p.Bool = decide (s ≠ [])) ∧
    (∀ b, p.Value = Value.bool b → p.Bool = b) ∧
    (∀ v, p.Value = Value.int64 v →
      p.Int64 = v ∧ p.Str = FormatInt v ∧ p.Int intBits = wrapSigned intBits v ∧
      (isInt64 v → p.Int 64 = v)) ∧
    (∀ v, p.Value = Value.int v → p.Int intBits = v ∧ p.Int64 = v) ∧
    (∀ v, p.Value = Value.int32 v → p.Int intBits = v ∧ p.Int64 = v) ∧
    (∀ v, p.Value = Value.uint v →
      p.Int intBits = wrapSigned intBits v ∧ p.Int64 = wrapSigned 64 v) ∧
    (∀ v, p.Value = Value.uint32 v → p.Int intBits = wrapSigned intBits v ∧ p.Int64 = v) ∧
    (∀ v, p.Value = Value.uint64 v →
      p.Int intBits = wrapSigned intBits v ∧ p.Int64 = wrapSigned 64 v) ∧
    (p.Value.isIntegerKind = true →
      p.Str = FormatInt p.Int64 ∧ p.Bool = decide (p.Int64 > 0)) ∧
    (∀ t, p.Value = Value.memberState t →
      p.MemberState = Run.ret (some t) ∧ p.User = Run.ret (some t.DGoUser)) ∧
    (∀ t, p.Value = Value.advUserMatch t →
      p.MemberState = Run.ret t.Member ∧ p.User = Run.ret t.User ∧
      p.AdvUser = Run.ret (some t)) ∧
    (p.Value.isNilPointer = false → p.MemberState ≠ Run.fault ∧ p.User ≠ Run.fault) ∧
    p.AdvUser ≠ Run.fault := by
  refine ⟨fun h => ?_, fun h1 h2 => ?_, fun h => ?_, fun h1 h2 h3 => ?_, fun h1 h2 => ?_,
    fun h => ?_, fun s h => ?_, fun b h => ?_, fun v h => ?_, fun v h => ?_, fun v h => ?_,
    fun v h => ?_, fun v h => ?_, fun v h => ?_, fun h => ?_, fun t h => ?_, fun t h => ?_,
    fun h => ?_, ?_⟩
  · simp [ParsedArg.Str, ParsedArg.Int, ParsedArg.Int64, ParsedArg.Bool, ParsedArg.MemberState,
      ParsedArg.User, ParsedArg.AdvUser, h]
  · cases hv : p.Value <;>
      simp_all [ParsedArg.Str, Value.isStringKind, Value.isIntegerKind]
  · cases hv : p.Value <;>
      simp_all [ParsedArg.Int, ParsedArg.Int64, Value.isIntegerKind]
  · cases hv : p.Value <;>
      simp_all [ParsedArg.Bool, Value.isBoolKind, Value.isStringKind, Value.isIntegerKind]
  · cases hv : p.Value with
    | nilPointer k =>
      cases k <;>
        simp_all [ParsedArg.MemberState, ParsedArg.User, Value.isMemberStateKind,
          Value.isAdvUserMatchKind]
    | _ =>
      simp_all [ParsedArg.MemberState, ParsedArg.User, Value.isMemberStateKind,
        Value.isAdvUserMatchKind]
  · cases hv : p.Value with
    | nilPointer k => cases k <;> simp_all [ParsedArg.AdvUser, Value.isAdvUserMatchKind]
    | _ => simp_all [ParsedArg.AdvUser, Value.isAdvUserMatchKind]
  · simp [ParsedArg.Str, ParsedArg.Bool, h]
  · simp [ParsedArg.Bool, h]
  · refine ⟨by simp [ParsedArg.Int64, h], by simp [ParsedArg.Str, ParsedArg.Int64, h],
      by simp [ParsedArg.Int, h], fun hv => ?_⟩
    simp only [ParsedArg.Int, h]
    exact wrapSigned_of_isInt64 v hv
  · simp [ParsedArg.Int, ParsedArg.Int64, h]
  · simp [ParsedArg.Int, ParsedArg.Int64, h]
  · simp [ParsedArg.Int, ParsedArg.Int64, h]
  · simp [ParsedArg.Int, ParsedArg.Int64, h]
  · simp [ParsedArg.Int, ParsedArg.Int64, h]
  · cases hv : p.Value <;>
      simp_all [ParsedArg.Str, ParsedArg.Bool, Value.isIntegerKind]
  · simp [ParsedArg.MemberState, ParsedArg.User, h]
  · simp [ParsedArg.MemberState, ParsedArg.User, ParsedArg.AdvUser, h]
  · cases hv : p.Value <;>
      simp_all [ParsedArg.MemberState, ParsedArg.User, Value.isNilPointer]
  · cases hv : p.Value with
    | nilPointer k => cases k <;> simp [ParsedArg.AdvUser, hv]
    | _ => simp [ParsedArg.AdvUser, hv]

/-- C22: a `FloatArg` with the bounds 0 and 10 and the token `NaN`, the text
form of the `float64` NaN. The bounds differ and NaN is not between them, yet
`ParseFromMessage` returns NaN with no error, and so does
`ParseFromInteraction` on a string option holding the same text: both
comparisons of the range test are false for a NaN. -/
theorem FloatArg_accepts_NaN (F : FloatConversion) :
    ParseFloat F "NaN".toList = (f64NaN, none) ∧
    f64Ne f64Ten f64Zero = true ∧
    (f64Le f64Zero f64NaN && f64Le f64NaN f64Ten) = false ∧
    FloatArg.ParseFromMessage F ⟨f64Zero, f64Ten⟩ defN "NaN".toList ⟨none, none, none⟩ =
      (Value.float64 f64NaN, none) ∧
    FloatArg.ParseFromInteraction asciiTables F ⟨f64Zero, f64Ten⟩ defN ⟨none, none, none⟩
        (optionsSingle "n" (Value.string "NaN".toList)) =
      (Value.float64 f64NaN, none) := by
  have hp : ParseFloat F "NaN".toList = (f64NaN, none) := rfl
  have hlt : f64Lt f64Ten f64NaN = false ∧ f64Lt f64NaN f64Zero = false := by decide
  have hs : ExpectString asciiTables (optionsSingle "n" (Value.string "NaN".toList))
      defN.Name = ("NaN".toList, none) := by decide
  refine ⟨hp, by decide, by decide, ?_, ?_⟩
  · unfold FloatArg.ParseFromMessage
    simp only [hp, hlt.1, hlt.2]
    simp
  · unfold FloatArg.ParseFromInteraction
    simp only [hs, hp, hlt.1, hlt.2]
    simp

/-- C23: a payload whose option `n` holds the boolean `true`. With no range
configured `IntArg.ParseFromInteraction` returns the integer 0 with no error;
with the range 1 to 10 it returns an `OutOfRangeError` for the value 0. In
neither case is the error the type mismatch that `ExpectInt64` reports for the
same payload. -/
theorem IntArg_ParseFromInteraction_bool :
    IntArg.ParseFromInteraction asciiTables ⟨0, 0, false⟩ defN ⟨none, none, none⟩
        (optionsSingle "n" (Value.bool true)) = (Value.int64 0, none) ∧
    IntArg.ParseFromInteraction asciiTables ⟨1, 10, false⟩ defN ⟨none, none, none⟩
        (optionsSingle "n" (Value.bool true)) =
      (Value.nil, some (Error.OutOfRangeError "n".toList (Value.int64 0) (Value.int64 1)
        (Value.int64 10) false)) ∧
    ExpectInt64 asciiTables (optionsSingle "n" (Value.bool true)) "n".toList =
      (0, some (NewErrArgExpected "n".toList "int64".toList (Value.bool true))) := by
  refine ⟨by decide, by decide, by decide⟩

/-- C24: the option `user` holds the id 5, the `Members` table holds under 5 a
member that carries its user, and the `Users` table has no entry for 5.
`ExpectMemberOpt` and `ExpectMember` return that member with no error and with
its `User` field nil: the user found in the `Users` table, here none, is
stored into the member unconditionally. -/
theorem ExpectMemberOpt_drops_user :
    resolvedMemberOnly.Members 5 =
      some (some { User := some { ID := 5, Username := "visitor".toList }, Nick := [],
                   Roles := [] }) ∧
    resolvedMemberOnly.Users 5 = none ∧
    ExpectMemberOpt asciiTables optionsMemberOnly "user".toList =
      Run.ret (some { User := none, Nick := [], Roles := [] }, true, none) ∧
    ExpectMember asciiTables optionsMemberOnly "user".toList =
      Run.ret (some { User := none, Nick := [], Roles := [] }, none) := by
  refine ⟨by decide, by decide, by decide, by decide⟩

/-- The part of the range rule that `FloatArg.ParseFromMessage` keeps: for a
text that `strconv.ParseFloat` converts to `v`, with bounds that differ and no
NaN among `v` and the bounds, `v` is returned exactly when it lies between
the bounds, and the `OutOfRangeError` carrying `v`, the bounds and the `Float`
flag is returned otherwise. -/
theorem FloatArg_ParseFromMessage_range (F : FloatConversion) (f : FloatArg) (d : ArgDef)
    (part : GoString) (data : Data) (v : Nat) (hp : ParseFloat F part = (v, none))
    (hne : f64Ne f.Max f.Min = true) (hv : f64IsNaN v = false)
    (hmin : f64IsNaN f.Min = false) (hmax : f64IsNaN f.Max = false) :
    (f.ParseFromMessage F d part data = (Value.float64 v, none) ↔
      (f64Le f.Min v = true ∧ f64Le v f.Max = true)) ∧
    (¬ (f64Le f.Min v = true ∧ f64Le v f.Max = true) →
      f.ParseFromMessage F d part data =
        (Value.nil, some (Error.OutOfRangeError d.Name (Value.float64 v)
          (Value.float64 f.Min) (Value.float64 f.Max) true))) := by
  have hle : (f64Le f.Min v = true ∧ f64Le v f.Max = true) ↔
      ¬ (f64Lt f.Max v = true ∨ f64Lt v f.Min = true) := by
    simp only [f64Le, f64Lt, hv, hmin, hmax, Bool.not_false, Bool.true_and, decide_eq_true_eq]
    omega
  unfold FloatArg.ParseFromMessage
  simp only [hp, hne]
  by_cases hr : f64Lt f.Max v = true ∨ f64Lt v f.Min = true
  · have hn : ¬ (f64Le f.Min v = true ∧ f64Le v f.Max = true) := fun h => hle.mp h hr
    simp [hr, hn]
  · have hy : f64Le f.Min v = true ∧ f64Le v f.Max = true := hle.mpr hr
    simp [hr, hy]

/-- On a string option holding a text that `strconv.ParseFloat` converts with
no error, `FloatArg.ParseFromInteraction` gives the outcome of
`FloatArg.ParseFromMessage` on that text. -/
theorem FloatArg_ParseFromInteraction_agrees (U : UnicodeTables) (F : FloatConversion)
    (f : FloatArg) (d : ArgDef) (data : Data) (sopts : SlashCommandsParseOptions)
    (o : DataOption) (t : GoString) (v : Nat) (hp : ParseFloat F t = (v, none))
    (ho : sopts.Options (ToLower U d.Name) = some o) (hv : o.Value = Value.string t) :
    f.ParseFromInteraction U F d data sopts = f.ParseFromMessage F d t data := by
  have hs : ExpectString U sopts d.Name = (t, none) := by
    unfold ExpectString ExpectStringOpt; rw [ho]; simp [hv]
  unfold FloatArg.ParseFromInteraction FloatArg.ParseFromMessage
  simp only [hs, hp]
  simp

/-- The case `ExpectMemberOpt` handles as C24 says: when the `Users` table has
a user under the id, the member of the `Members` table is returned with that
user in its `User` field. -/
theorem ExpectMemberOpt_user_from_table (U : UnicodeTables) (sopts : SlashCommandsParseOptions)
    (name : GoString) (o : DataOption) (id : Int) (m : Member) (u : User)
    (ho : sopts.Options (ToLower U name) = some o) (hv : o.Value = Value.int64 id)
    (hm : sopts.Interaction.Members id = some (some m))
    (hu : sopts.Interaction.Users id = some (some u)) :
    ExpectMemberOpt U sopts name = Run.ret (some { m with User := some u }, true, none) := by
  simp [ExpectMemberOpt, ExpectInt64Opt, ho, hv, hm, hu]

end Dcmd
